import Mathlib

/-!
Verification of the constant-table resolver of `terminal_dex_scraper`
(`src/terminal_dex_scraper/gen_1/red_and_blue/scrapers/item_constants.py`,
class `_ItemConstantsParser`).

The Python class is shallowly embedded as a state-passing interpreter over
`ParserState`.  Python `dict`s that are only read/written pointwise are
modeled as functions into `Option`; `tmnum_by_value` (which is iterated and
sorted) is modeled as an association list with Python insertion semantics.
Python exceptions (`ValueError`, `KeyError`, `IndexError`) are modeled with
`Except PyErr`.  Machine integers are `Int` (Python integers are unbounded).
Python list assignment `xs[i] = v` with its negative-index semantics is
modeled by `pyListSet`.
-/

namespace ItemConstants

/-- Errors raised by the Python parser: `ValueError(msg)` raised explicitly or
by `int()` / tuple unpacking, `KeyError` from indexing a dict with a missing
key, and `IndexError` from list indexing out of range. -/
inductive PyErr where
  | valueError (msg : String)
  | keyError (key : String)
  | indexError
  deriving DecidableEq, Repr

/-- Whitespace characters stripped by Python `str.strip()` / `str.split()`. -/
def isWs (c : Char) : Bool :=
  c = ' ' || c = '\t' || c = '\n' || c = '\r' || c = '\x0b' || c = '\x0c'

/-- Python `str.strip()`. -/
def pyStrip (s : String) : String :=
  String.mk (((s.toList.dropWhile isWs).reverse.dropWhile isWs).reverse)

/-- Python `str.startswith(p)`. -/
def pyStartsWith (s p : String) : Bool :=
  p.toList.isPrefixOf s.toList

/-- Python `str.endswith(p)`. -/
def pyEndsWith (s p : String) : Bool :=
  p.toList.isSuffixOf s.toList

/-- Helper for `pySplit`: splits a character list on whitespace runs,
accumulating the current (reversed) token. -/
def wsSplitAux : List Char → List Char → List String
  | [], acc => if acc.isEmpty then [] else [String.mk acc.reverse]
  | c :: cs, acc =>
    if isWs c then
      if acc.isEmpty then wsSplitAux cs [] else String.mk acc.reverse :: wsSplitAux cs []
    else wsSplitAux cs (c :: acc)

/-- Python `str.split()` (no arguments): split on whitespace runs, no empty
tokens. -/
def pySplit (s : String) : List String :=
  wsSplitAux s.toList []

/-- Python `str.split(maxsplit=1)`: leading whitespace dropped, first token,
then the remainder after the separating whitespace. -/
def pySplitMax1 (s : String) : List String :=
  let l := s.toList.dropWhile isWs
  let tok := l.takeWhile (fun c => !(isWs c))
  let rest := (l.dropWhile (fun c => !(isWs c))).dropWhile isWs
  if tok.isEmpty then []
  else if rest.isEmpty then [String.mk tok]
  else [String.mk tok, String.mk rest]

/-- Value of a hexadecimal digit, upper or lower case. -/
def hexDigitVal (c : Char) : Option Nat :=
  if '0' ≤ c ∧ c ≤ '9' then some (c.toNat - '0'.toNat)
  else if 'a' ≤ c ∧ c ≤ 'f' then some (c.toNat - 'a'.toNat + 10)
  else if 'A' ≤ c ∧ c ≤ 'F' then some (c.toNat - 'A'.toNat + 10)
  else none

/-- Accumulator loop for `hexVal?`. -/
def hexValAux : List Char → Nat → Option Nat
  | [], acc => some acc
  | c :: cs, acc =>
    match hexDigitVal c with
    | some d => hexValAux cs (acc * 16 + d)
    | none => none

/-- Python `int(s, 16)` on a plain digit string: `none` models the
`ValueError` raised on an empty or non-hexadecimal string. -/
def hexVal? (cs : List Char) : Option Nat :=
  if cs.isEmpty then none else hexValAux cs 0

/-- Python `str.isdigit()` (restricted to ASCII digits, which is all the
source corpus contains). -/
def pyIsDigit (t : String) : Bool :=
  !t.toList.isEmpty && t.toList.all Char.isDigit

/-- Decimal value of an all-digit string. -/
def decVal (cs : List Char) : Nat :=
  cs.foldl (fun acc c => acc * 10 + (c.toNat - '0'.toNat)) 0

/-- Python `f"[n]:02d"`-style formatting: zero-pad to width 2 (the sign counts
toward the width, as in Python). -/
def fmt02 (n : Int) : String :=
  let s := toString n
  if s.length < 2 then "0" ++ s else s

/-- Pointwise update of a function-modeled dict. -/
def upd {κ α : Type} [DecidableEq κ] (m : κ → Option α) (k : κ) (v : α) :
    κ → Option α :=
  fun x => if x = k then some v else m x

/-- Python dict assignment `d[k] = v` on an association-list-modeled dict:
update the existing entry in place, else append. -/
def dinsert (d : List (Int × String)) (k : Int) (v : String) : List (Int × String) :=
  if (d.map Prod.fst).contains k then
    d.map (fun p => if p.1 = k then (k, v) else p)
  else d ++ [(k, v)]

/-- Python `d.setdefault(k, v)` (result dict only; the return value is
discarded by the source). -/
def dsetdefault (d : List (Int × String)) (k : Int) (v : String) :
    List (Int × String) :=
  if (d.map Prod.fst).contains k then d else d ++ [(k, v)]

/-- Insertion into a key-sorted association list, for `sorted(d.items())`
(keys are unique, so pair ordering is key ordering). -/
def insertSorted (p : Int × String) : List (Int × String) → List (Int × String)
  | [] => [p]
  | q :: qs => if p.1 ≤ q.1 then p :: q :: qs else q :: insertSorted p qs

/-- Python `sorted(d.items())` for an association list with unique keys. -/
def sortByKey (d : List (Int × String)) : List (Int × String) :=
  d.foldr insertSorted []

/-- Python list assignment `xs[i] = v`, including negative-index semantics:
`-len <= i < 0` addresses from the end, anything else out of range raises
`IndexError`. -/
def pyListSet (l : List (Option String)) (i : Int) (v : Option String) :
    Except PyErr (List (Option String)) :=
  if 0 ≤ i ∧ i < (l.length : Int) then .ok (l.set i.toNat v)
  else if -(l.length : Int) ≤ i ∧ i < 0 then .ok (l.set ((l.length : Int) + i).toNat v)
  else .error .indexError

/-- Python list read `xs[i]` with the same index semantics as `pyListSet`;
`none` models `IndexError`.  Used only by the verification instrumentation. -/
def pyListGet (l : List (Option String)) (i : Int) : Option (Option String) :=
  if 0 ≤ i ∧ i < (l.length : Int) then l[i.toNat]?
  else if -(l.length : Int) ≤ i ∧ i < 0 then l[((l.length : Int) + i).toNat]?
  else none

/-- Python `parts[i]`, raising `IndexError` when out of range. -/
def getToken (parts : List String) (i : Nat) : Except PyErr String :=
  match parts[i]? with
  | some t => .ok t
  | none => .error .indexError

/-- State of `_ItemConstantsParser` (the `lines` field is passed separately;
`skipping` is the source's `inside_macro` flag). -/
structure ParserState where
  constants : List (Option String)
  value_to_name : Int → Option String
  aliases : String → Option String
  pending_aliases : List (String × Int)
  machine_move_map : String → Option String
  machine_map : String → Option String
  tmnum_by_value : List (Int × String)
  special_values : String → Option Int
  numeric_defines : String → Option Int
  const_value : Option Int
  skipping : Bool

/-- Initial parser state (all dataclass defaults). -/
def initState : ParserState :=
  { constants := []
    value_to_name := fun _ => none
    aliases := fun _ => none
    pending_aliases := []
    machine_move_map := fun _ => none
    machine_map := fun _ => none
    tmnum_by_value := []
    special_values := fun _ => none
    numeric_defines := fun _ => none
    const_value := none
    skipping := false }

/-- `_strip_comments`. -/
def stripComments (line : String) : String :=
  pyStrip (String.mk (line.toList.takeWhile (fun c => c ≠ ';')))

/-- `_set_const_value`. -/
def setConstValue (s : ParserState) (value : Int) : ParserState :=
  { s with const_value := some value
           numeric_defines := upd s.numeric_defines "const_value" value }

/-- `_ensure_length`. -/
def ensureLength (s : ParserState) (index : Int) : ParserState :=
  if (s.constants.length : Int) ≤ index then
    { s with constants :=
        s.constants ++ List.replicate (index + 1 - s.constants.length).toNat none }
  else s

/-- `_set_numeric_define`. -/
def setNumericDefine (s : ParserState) (name : String) (value : Int)
    (track_special : Bool) : ParserState :=
  let s := { s with numeric_defines := upd s.numeric_defines name value }
  if track_special && !(pyEndsWith name "_TMNUM") then
    { s with special_values := upd s.special_values name value }
  else s

/-- `_register_alias`. -/
def registerAlias (s : ParserState) (name : String) (value : Int) : ParserState :=
  let s := setNumericDefine s name value false
  match s.value_to_name value with
  | some canonical => { s with aliases := upd s.aliases name canonical }
  | none => { s with pending_aliases := s.pending_aliases ++ [(name, value)] }

/-- `_resolve_pending_aliases` (the pending list is scanned against the
`value_to_name` map as it was on entry, which the loop never modifies). -/
def resolvePendingAliases (s : ParserState) : ParserState :=
  if s.pending_aliases.isEmpty then s
  else
    let r := s.pending_aliases.foldl
      (fun (acc : List (String × Int) × (String → Option String)) p =>
        match s.value_to_name p.2 with
        | none => (acc.1 ++ [p], acc.2)
        | some canonical => (acc.1, upd acc.2 p.1 canonical))
      ([], s.aliases)
    { s with pending_aliases := r.1, aliases := r.2 }

/-- Expansion performed by `expression.replace("+", " + ").replace("-", " - ")`
(the first replace introduces no `-` characters, so the composition is a
single pass). -/
def opExpand : List Char → List Char
  | [] => []
  | c :: cs =>
    if c = '+' || c = '-' then ' ' :: c :: ' ' :: opExpand cs
    else c :: opExpand cs

/-- Token list produced inside `_evaluate_expression`. -/
def exprTokens (expression : String) : List String :=
  pySplit (String.mk (opExpand expression.toList))

/-- `_token_to_value`. -/
def tokenToValue (s : ParserState) (token expression : String) : Except PyErr Int :=
  if pyStartsWith token "$" then
    match hexVal? (token.toList.drop 1) with
    | some v => .ok (Int.ofNat v)
    | none => .error (.valueError ("invalid literal for int with base 16: " ++ token))
  else if pyIsDigit token then .ok (Int.ofNat (decVal token.toList))
  else
    match s.numeric_defines token with
    | some v => .ok v
    | none =>
      .error (.valueError ("Unknown token " ++ token ++ " in expression " ++ expression ++ "."))

/-- Loop body of `_evaluate_expression`: `total` is the running value and `op`
the last seen operator (initially `+`). -/
def evalTokens (s : ParserState) (expression : String) :
    List String → Int → String → Except PyErr Int
  | [], total, _ => .ok total
  | token :: rest, total, op =>
    if token = "+" || token = "-" then evalTokens s expression rest total token
    else
      match tokenToValue s token expression with
      | .error e => .error e
      | .ok value =>
        evalTokens s expression rest (if op = "+" then total + value else total - value) op

/-- `_evaluate_expression`. -/
def evaluateExpression (s : ParserState) (expression : String) : Except PyErr Int :=
  evalTokens s expression (exprTokens expression) 0 "+"

/-- `_handle_const_def`. -/
def handleConstDef (s : ParserState) : ParserState :=
  ensureLength (setConstValue s 0) 0

/-- `_handle_const_next` (`_, value_str = line.split(maxsplit=1)` raises
`ValueError` when there is no second part). -/
def handleConstNext (s : ParserState) (line : String) : Except PyErr ParserState :=
  match pySplitMax1 line with
  | [_, value_str] =>
    match evaluateExpression s value_str with
    | .error e => .error e
    | .ok next_value => .ok (setConstValue (ensureLength s next_value) next_value)
  | _ => .error (.valueError "not enough values to unpack (expected 2, got 1)")

/-- `_handle_const`. -/
def handleConst (s : ParserState) (line : String) : Except PyErr ParserState :=
  let parts := pySplit line
  match getToken parts 1 with
  | .error e => .error e
  | .ok name =>
    match s.const_value with
    | none => .error (.valueError "const_def must appear before const declarations.")
    | some cv =>
      let s := ensureLength s cv
      match pyListSet s.constants cv (some name) with
      | .error e => .error e
      | .ok cs =>
        let s := { s with constants := cs, value_to_name := upd s.value_to_name cv name }
        let s := setNumericDefine s name cv false
        let s := setConstValue s (cv + 1)
        .ok (resolvePendingAliases s)

/-- `_handle_add_hm`. -/
def handleAddHm (s : ParserState) (line : String) : Except PyErr ParserState :=
  match getToken (pySplit line) 1 with
  | .error e => .error e
  | .ok move_name =>
    let hm_item_name := "HM_" ++ move_name
    match s.const_value with
    | none => .error (.valueError "const_value is not initialized before add_hm.")
    | some cv =>
      let s := ensureLength s cv
      match pyListSet s.constants cv (some hm_item_name) with
      | .error e => .error e
      | .ok cs =>
        let s := { s with constants := cs
                          value_to_name := upd s.value_to_name cv hm_item_name }
        let s := setNumericDefine s hm_item_name cv false
        let s := setConstValue s (cv + 1)
        let s := resolvePendingAliases s
        match s.numeric_defines "NUM_TMS" with
        | none => .error (.keyError "NUM_TMS")
        | some num_tms =>
          match s.numeric_defines "__tmhm_value__" with
          | none => .error (.keyError "__tmhm_value__")
          | some tmhm_value =>
            let hm_index := tmhm_value - num_tms
            let s := setNumericDefine s "HM_VALUE" hm_index true
            let machine_move_name := "HM" ++ fmt02 hm_index ++ "_MOVE"
            let s := { s with
              machine_move_map := upd s.machine_move_map machine_move_name move_name }
            let s := { s with
              machine_map := upd s.machine_map hm_item_name machine_move_name }
            let tmnum_name := move_name ++ "_TMNUM"
            let s := setNumericDefine s tmnum_name tmhm_value false
            let s := { s with
              tmnum_by_value := dinsert s.tmnum_by_value tmhm_value tmnum_name }
            .ok (setNumericDefine s "__tmhm_value__" (tmhm_value + 1) true)

/-- `_handle_add_tm`. -/
def handleAddTm (s : ParserState) (line : String) : Except PyErr ParserState :=
  match getToken (pySplit line) 1 with
  | .error e => .error e
  | .ok move_name =>
    let tm_item_name := "TM_" ++ move_name
    match s.const_value with
    | none => .error (.valueError "const_value is not initialized before add_tm.")
    | some cv =>
      let s := ensureLength s cv
      match pyListSet s.constants cv (some tm_item_name) with
      | .error e => .error e
      | .ok cs =>
        let s := { s with constants := cs
                          value_to_name := upd s.value_to_name cv tm_item_name }
        let s := setNumericDefine s tm_item_name cv false
        let s := setConstValue s (cv + 1)
        let s := resolvePendingAliases s
        match s.numeric_defines "__tmhm_value__" with
        | none => .error (.keyError "__tmhm_value__")
        | some tmhm_value =>
          let machine_move_name := "TM" ++ fmt02 tmhm_value ++ "_MOVE"
          let s := { s with
            machine_move_map := upd s.machine_move_map machine_move_name move_name }
          let s := { s with
            machine_map := upd s.machine_map tm_item_name machine_move_name }
          let tmnum_name := move_name ++ "_TMNUM"
          let s := setNumericDefine s tmnum_name tmhm_value false
          let s := { s with
            tmnum_by_value := dinsert s.tmnum_by_value tmhm_value tmnum_name }
          .ok (setNumericDefine s "__tmhm_value__" (tmhm_value + 1) true)

/-- Shared tail of the `DEF name = expr` branch and the non-alias `EQU`
branch of `_handle_def` (the source repeats this code verbatim). -/
def defStoreNumeric (s : ParserState) (name : String) (value : Int) : ParserState :=
  let s := setNumericDefine s name value true
  if name = "UNUSED_TMNUM" then
    { s with tmnum_by_value := dinsert s.tmnum_by_value value name }
  else s

/-- `_handle_def`. -/
def handleDef (s : ParserState) (line : String) : Except PyErr ParserState :=
  let parts := pySplit line
  match getToken parts 1 with
  | .error e => .error e
  | .ok name =>
    if parts.contains "+=" then
      match parts.getLast? with
      | none => .error .indexError
      | some last =>
        match evaluateExpression s last with
        | .error e => .error e
        | .ok increment =>
          match s.numeric_defines name with
          | none => .error (.keyError name)
          | some old => .ok (setNumericDefine s name (old + increment) true)
    else if parts.contains "=" then
      let expression := String.intercalate " " (parts.drop 3)
      match evaluateExpression s expression with
      | .error e => .error e
      | .ok value => .ok (defStoreNumeric s name value)
    else if parts.contains "EQU" then
      let expression := String.intercalate " " (parts.drop 3)
      match evaluateExpression s expression with
      | .error e => .error e
      | .ok value =>
        let tokens := pySplit expression
        match tokens, s.value_to_name value with
        | [t], some canonical =>
          if canonical = t then .ok (registerAlias s name value)
          else .ok (defStoreNumeric s name value)
        | _, _ => .ok (defStoreNumeric s name value)
    else .ok s

/-- `_dispatch_line`. -/
def dispatchLine (s : ParserState) (line : String) : Except PyErr ParserState :=
  if line = "const_def" then .ok (handleConstDef s)
  else if pyStartsWith line "const_next" then handleConstNext s line
  else if pyStartsWith line "const " then handleConst s line
  else if pyStartsWith line "add_hm" then handleAddHm s line
  else if pyStartsWith line "add_tm" then handleAddTm s line
  else if pyStartsWith line "ASSERT" then .ok s
  else if pyStartsWith line "DEF " then handleDef s line
  else .ok s

/-- Body of the `parse` loop for one raw line: comment stripping, macro-token
handling, macro skipping, then dispatch. -/
def processLine (s : ParserState) (raw : String) : Except PyErr ParserState :=
  let line := stripComments raw
  if line = "" then .ok s
  else if pyStartsWith line "MACRO" then .ok { s with skipping := true }
  else if pyStartsWith line "ENDM" then .ok { s with skipping := false }
  else if s.skipping then .ok s
  else dispatchLine s line

/-- The `parse` loop over all lines, propagating the first raised error. -/
def processLines (s : ParserState) : List String → Except PyErr ParserState
  | [] => .ok s
  | raw :: rest =>
    match processLine s raw with
    | .error e => .error e
    | .ok s' => processLines s' rest

/-- `_inject_unused_tmnum`. -/
def injectUnusedTmnum (s : ParserState) : ParserState :=
  match s.numeric_defines "UNUSED_TMNUM" with
  | none => s
  | some value =>
    { s with tmnum_by_value := dsetdefault s.tmnum_by_value value "UNUSED_TMNUM" }

/-- `_build_tmnum_constants`.  `[None] * (max_index + 1)` is empty when
`max_index + 1 <= 0`, and each loop iteration is a Python list assignment. -/
def buildTmnumConstants (s : ParserState) : Except PyErr (List (Option String)) :=
  let max_index : Int :=
    match s.tmnum_by_value.map Prod.fst with
    | [] => 0
    | k :: ks => ks.foldl max k
  let start : List (Option String) := List.replicate (max_index + 1).toNat none
  (sortByKey s.tmnum_by_value).foldlM (fun arr p => pyListSet arr p.1 (some p.2)) start

/-- Result tuple of `_ItemConstantsParser.parse`. -/
structure ParseResult where
  constants : List (Option String)
  aliases : String → Option String
  machine_move_map : String → Option String
  tmnum_constants : List (Option String)
  machine_map : String → Option String
  special_values : String → Option Int

/-- `_ItemConstantsParser.parse`: the main loop followed by the final pending
resolution, the unused-TM injection and the dense machine-index array build. -/
def parse (lines : List String) : Except PyErr ParseResult :=
  match processLines initState lines with
  | .error e => .error e
  | .ok s =>
    let s := resolvePendingAliases s
    let s := injectUnusedTmnum s
    match buildTmnumConstants s with
    | .error e => .error e
    | .ok tmnum_constants =>
      .ok { constants := s.constants
            aliases := s.aliases
            machine_move_map := s.machine_move_map
            tmnum_constants := tmnum_constants
            machine_map := s.machine_map
            special_values := s.special_values }

/-- Whether an `Except` value is a success. -/
def exceptOk {ε α : Type} : Except ε α → Bool
  | .ok _ => true
  | .error _ => false

/-!
Verification instrumentation: execution traces derived from `processLine`.
These functions re-run the interpreter and record, for each line, observable
events of the run (which machine-slot numbers the `add_tm`/`add_hm` handlers
consume, which indices `_ensure_length` receives, whether a symbol assignment
lands on a placeholder slot).  They define the auxiliary vocabulary used to
state the spec's stream-level properties; they do not alter the embedding.
-/

/-- Dispatch classification of a normalized line that reaches the
`add_hm`/`add_tm` branches of `_dispatch_line` (in dispatch order). -/
def isMachineDispatch (line : String) : Bool :=
  !(line = "const_def") && !(pyStartsWith line "const_next") &&
    !(pyStartsWith line "const ") &&
    (pyStartsWith line "add_hm" || pyStartsWith line "add_tm")

/-- Whether a raw line is processed by a machine-directive handler in state
`s` (not blank, not a macro token, not skipped, dispatching to
`add_hm`/`add_tm`). -/
def isMachineLine (s : ParserState) (raw : String) : Bool :=
  let line := stripComments raw
  !(line = "") && !(pyStartsWith line "MACRO") && !(pyStartsWith line "ENDM") &&
    !s.skipping && isMachineDispatch line

/-- Machine-slot trace: the value of the shared `__tmhm_value__` counter read
by each successfully processed `add_tm`/`add_hm` directive, in stream order
(the trace stops at the first error). -/
def machineSlots : ParserState → List String → List Int
  | _, [] => []
  | s, raw :: rest =>
    match processLine s raw with
    | .error _ => []
    | .ok s' =>
      if isMachineLine s raw then
        ((s.numeric_defines "__tmhm_value__").getD 0) :: machineSlots s' rest
      else machineSlots s' rest

/-- Whether a normalized line names `__tmhm_value__` as its second token — the
only way any non-machine directive can write the shared machine-value
counter (`DEF __tmhm_value__ ...`), and the only way a `const` directive
could. -/
def secondTokenIsTmhm (line : String) : Bool :=
  (pySplit line)[1]? == some "__tmhm_value__"

/-- The `_ensure_length` arguments issued while successfully processing one
normalized line in state `s` (empty for lines that error before the call). -/
def lineEnsures (s : ParserState) (line : String) : List Int :=
  if line = "" || pyStartsWith line "MACRO" || pyStartsWith line "ENDM" || s.skipping then
    []
  else if line = "const_def" then [0]
  else if pyStartsWith line "const_next" then
    match pySplitMax1 line with
    | [_, value_str] =>
      match evaluateExpression s value_str with
      | .ok v => [v]
      | .error _ => []
    | _ => []
  else if pyStartsWith line "const " || pyStartsWith line "add_hm" ||
      pyStartsWith line "add_tm" then
    match (pySplit line)[1]?, s.const_value with
    | some _, some cv => [cv]
    | _, _ => []
  else []

/-- Trace of all `_ensure_length` arguments over a run (stops at the first
error). -/
def ensureTrace : ParserState → List String → List Int
  | _, [] => []
  | s, raw :: rest =>
    match processLine s raw with
    | .error _ => []
    | .ok s' => lineEnsures s (stripComments raw) ++ ensureTrace s' rest

/-- Whether the symbol assignment performed by one normalized line (if any)
lands on a slot currently holding the no-name placeholder.  Lines that do not
assign, or that error before assigning, count as fresh. -/
def lineAssignFresh (s : ParserState) (line : String) : Bool :=
  if line = "" || pyStartsWith line "MACRO" || pyStartsWith line "ENDM" || s.skipping then
    true
  else if line = "const_def" || pyStartsWith line "const_next" then true
  else if pyStartsWith line "const " || pyStartsWith line "add_hm" ||
      pyStartsWith line "add_tm" then
    match (pySplit line)[1]?, s.const_value with
    | some _, some cv =>
      match pyListGet (ensureLength s cv).constants cv with
      | some (some _) => false
      | _ => true
    | _, _ => true
  else true

/-- Whether every symbol assignment of a run lands on a placeholder slot
(never overwrites an existing canonical name).  True for the real corpus. -/
def allAssignsFresh : ParserState → List String → Bool
  | _, [] => true
  | s, raw :: rest =>
    match processLine s raw with
    | .error _ => true
    | .ok s' => lineAssignFresh s (stripComments raw) && allAssignsFresh s' rest

/-- Syntactic conditions under which a stream can never record a
machine-index (`tmnum`) entry: no `add_tm`/`add_hm` directive and no
directive naming `UNUSED_TMNUM`. -/
def noTmnumSources (lines : List String) : Bool :=
  lines.all fun l =>
    let t := stripComments l
    !(pyStartsWith t "add_hm") && !(pyStartsWith t "add_tm") &&
      !((pySplit t)[1]? == some "UNUSED_TMNUM")

/-!
Specification-side expression evaluator (for the refinement claim about
`_evaluate_expression`).  These definitions follow the words of spec §4.3, not
the source: an expression is a sequence of `+`/`-`-separated terms evaluated
left to right; a term is a `$`-prefixed hexadecimal literal, a decimal
literal, or a previously defined name, and referencing an undefined name is
the `UnknownSymbol` failure.
-/

/-- Whether a token is one of the two operators of the spec grammar. -/
def isOpTok (t : String) : Bool := t = "+" || t = "-"

/-- Well-formedness of a token list against the spec grammar
`term (op term)*`: `expectTerm` tracks whether a term or an operator is
expected next. -/
def wfAlt : Bool → List String → Bool
  | expectTerm, [] => !expectTerm
  | true, t :: rest => !(isOpTok t) && wfAlt false rest
  | false, t :: rest => isOpTok t && wfAlt true rest

/-- Spec §4.3 meaning of a single term: a hexadecimal literal with a leading
`$` marker, a decimal literal, or the current value of a previously defined
numeric define; an undefined name is the fatal `UnknownSymbol` error. -/
def specTermValue (defs : String → Option Int) (t : String) : Except PyErr Int :=
  if pyStartsWith t "$" then
    match hexVal? (t.toList.drop 1) with
    | some v => .ok (Int.ofNat v)
    | none => .error (.valueError ("invalid literal for int with base 16: " ++ t))
  else if pyIsDigit t then .ok (Int.ofNat (decVal t.toList))
  else
    match defs t with
    | some v => .ok v
    | none => .error (.valueError ("UnknownSymbol: " ++ t))

/-- Spec §4.3 left-to-right evaluation of the `(op term)*` tail, starting from
the value of the leading term. -/
def specEvalSteps (defs : String → Option Int) : Int → List String → Except PyErr Int
  | acc, [] => .ok acc
  | acc, op :: t :: rest =>
    match specTermValue defs t with
    | .error e => .error e
    | .ok v => specEvalSteps defs (if op = "+" then acc + v else acc - v) rest
  | _, [_] => .error (.valueError "malformed expression")

/-- Spec §4.3 evaluator over a well-formed token list: evaluate the leading
term, then fold the operator/term pairs left to right. -/
def specEvalTokens (defs : String → Option Int) : List String → Except PyErr Int
  | [] => .error (.valueError "empty expression")
  | t :: rest =>
    match specTermValue defs t with
    | .error e => .error e
    | .ok v => specEvalSteps defs v rest

/-- Classification of a token as a non-literal (name) term of the spec
grammar. -/
def isNameTok (t : String) : Bool :=
  !(isOpTok t) && !(pyStartsWith t "$") && !(pyIsDigit t)

/-- Whether every `$`-prefixed token of a list is a syntactically valid
hexadecimal literal. -/
def allHexValid (tokens : List String) : Bool :=
  tokens.all fun t => !(pyStartsWith t "$") || (hexVal? (t.toList.drop 1)).isSome

/-- Whether a normalized line can neither establish the `const` counter nor
open a macro block: it is not `const_def`, not a `const_next` directive and
not a `MACRO` opener. -/
def noCounterInitLine (line : String) : Bool :=
  !(line = "const_def") && !(pyStartsWith line "const_next") &&
    !(pyStartsWith line "MACRO")

/-- Invariant used for alias soundness: the pending queue is empty and every
name referenced by the reverse lookup or by the alias map occurs somewhere in
the ordered symbol list. -/
def GoodState (s : ParserState) : Prop :=
  s.pending_aliases = [] ∧
  (∀ v n, s.value_to_name v = some n → some n ∈ s.constants) ∧
  (∀ a n, s.aliases a = some n → some n ∈ s.constants)

/-! ### Basic lemmas about the primitive operations -/

theorem processLines_append (a b : List String) (s : ParserState) :
    processLines s (a ++ b) =
      match processLines s a with
      | .error e => .error e
      | .ok s' => processLines s' b := by
  induction a generalizing s with
  | nil => rfl
  | cons x xs ih =>
    simp only [List.cons_append, processLines]
    cases processLine s x with
    | error e => rfl
    | ok s' => exact ih s'

theorem upd_self {κ α : Type} [DecidableEq κ] (m : κ → Option α) (k : κ) (v : α) :
    upd m k v k = some v := by
  simp [upd]

theorem upd_ne {κ α : Type} [DecidableEq κ] (m : κ → Option α) (k x : κ) (v : α)
    (h : x ≠ k) : upd m k v x = m x := by
  simp [upd, h]

theorem data_append (a b : String) : (a ++ b).data = a.data ++ b.data := rfl

theorem ne_of_data_head (a b : String) (x y : Char) (xs ys : List Char)
    (ha : a.data = x :: xs) (hb : b.data = y :: ys) (h : x ≠ y) : a ≠ b := by
  intro e
  rw [e, hb] at ha
  exact h (List.head_eq_of_cons_eq ha.symm)

theorem ensureLength_value_to_name (s : ParserState) (i : Int) :
    (ensureLength s i).value_to_name = s.value_to_name := by
  unfold ensureLength; split <;> rfl

theorem ensureLength_aliases (s : ParserState) (i : Int) :
    (ensureLength s i).aliases = s.aliases := by
  unfold ensureLength; split <;> rfl

theorem ensureLength_pending (s : ParserState) (i : Int) :
    (ensureLength s i).pending_aliases = s.pending_aliases := by
  unfold ensureLength; split <;> rfl

theorem ensureLength_defines (s : ParserState) (i : Int) :
    (ensureLength s i).numeric_defines = s.numeric_defines := by
  unfold ensureLength; split <;> rfl

theorem ensureLength_const_value (s : ParserState) (i : Int) :
    (ensureLength s i).const_value = s.const_value := by
  unfold ensureLength; split <;> rfl

theorem ensureLength_skipping (s : ParserState) (i : Int) :
    (ensureLength s i).skipping = s.skipping := by
  unfold ensureLength; split <;> rfl

theorem ensureLength_tmnum (s : ParserState) (i : Int) :
    (ensureLength s i).tmnum_by_value = s.tmnum_by_value := by
  unfold ensureLength; split <;> rfl

theorem ensureLength_special (s : ParserState) (i : Int) :
    (ensureLength s i).special_values = s.special_values := by
  unfold ensureLength; split <;> rfl

theorem mem_ensureLength (s : ParserState) (i : Int) (x : Option String)
    (h : x ∈ s.constants) : x ∈ (ensureLength s i).constants := by
  unfold ensureLength
  split
  · exact List.mem_append_left _ h
  · exact h

theorem ensureLength_length (s : ParserState) (i : Int) :
    ((ensureLength s i).constants.length : Int) =
      max (s.constants.length : Int) (i + 1) := by
  unfold ensureLength
  split
  · rename_i hle
    simp only [List.length_append, List.length_replicate]
    push_cast [Int.toNat_of_nonneg (by omega : (0:Int) ≤ i + 1 - s.constants.length)]
    omega
  · rename_i hgt
    omega

theorem resolvePending_of_nil (s : ParserState) (h : s.pending_aliases = []) :
    resolvePendingAliases s = s := by
  simp [resolvePendingAliases, h]

theorem resolvePending_constants (s : ParserState) :
    (resolvePendingAliases s).constants = s.constants := by
  unfold resolvePendingAliases; split <;> rfl

theorem resolvePending_value_to_name (s : ParserState) :
    (resolvePendingAliases s).value_to_name = s.value_to_name := by
  unfold resolvePendingAliases; split <;> rfl

theorem resolvePending_defines (s : ParserState) :
    (resolvePendingAliases s).numeric_defines = s.numeric_defines := by
  unfold resolvePendingAliases; split <;> rfl

theorem resolvePending_const_value (s : ParserState) :
    (resolvePendingAliases s).const_value = s.const_value := by
  unfold resolvePendingAliases; split <;> rfl

theorem resolvePending_skipping (s : ParserState) :
    (resolvePendingAliases s).skipping = s.skipping := by
  unfold resolvePendingAliases; split <;> rfl

theorem resolvePending_tmnum (s : ParserState) :
    (resolvePendingAliases s).tmnum_by_value = s.tmnum_by_value := by
  unfold resolvePendingAliases; split <;> rfl

theorem resolvePending_special (s : ParserState) :
    (resolvePendingAliases s).special_values = s.special_values := by
  unfold resolvePendingAliases; split <;> rfl

theorem pyListSet_length (l : List (Option String)) (i : Int) (v : Option String)
    (l' : List (Option String)) (h : pyListSet l i v = .ok l') :
    l'.length = l.length := by
  unfold pyListSet at h
  split at h
  · cases h; simp
  · split at h
    · cases h; simp
    · cases h

theorem pyListSet_ok (l : List (Option String)) (i : Int) (v : Option String)
    (l' : List (Option String)) (h : pyListSet l i v = .ok l') :
    ∃ j : Nat, j < l.length ∧ l' = l.set j v ∧ pyListGet l i = l[j]? := by
  unfold pyListSet at h
  split at h
  · rename_i hc
    cases h
    refine ⟨i.toNat, by omega, rfl, ?_⟩
    unfold pyListGet
    rw [if_pos hc]
  · split at h
    · rename_i hc1 hc2
      cases h
      refine ⟨((l.length : Int) + i).toNat, by omega, rfl, ?_⟩
      unfold pyListGet
      rw [if_neg hc1, if_pos hc2]
    · cases h

theorem pyListSet_of_nonneg (l : List (Option String)) (i : Int) (v : Option String)
    (h0 : 0 ≤ i) (h1 : i < (l.length : Int)) :
    pyListSet l i v = .ok (l.set i.toNat v) := by
  unfold pyListSet
  rw [if_pos ⟨h0, h1⟩]

theorem pyListSet_nil (i : Int) (v : Option String) :
    pyListSet [] i v = .error .indexError := by
  unfold pyListSet
  rw [if_neg (by simp), if_neg (by simp)]

theorem mem_set_of_ne (l : List (Option String)) (j : Nat) (v x : Option String)
    (hx : x ∈ l) (hj : l[j]? ≠ some x) : x ∈ l.set j v := by
  rcases List.mem_iff_getElem.mp hx with ⟨k, hk, rfl⟩
  have hkj : j ≠ k := by
    intro e
    exact hj (by rw [e, List.getElem?_eq_getElem hk])
  have hk2 : k < (l.set j v).length := by simpa using hk
  have : (l.set j v).get ⟨k, hk2⟩ = l[k] := List.getElem_set_ne hkj _
  exact List.mem_iff_getElem.mpr ⟨k, hk2, this⟩

theorem mem_set_self (l : List (Option String)) (j : Nat) (v : Option String)
    (hj : j < l.length) : v ∈ l.set j v := by
  have hj2 : j < (l.set j v).length := by simpa using hj
  have : (l.set j v).get ⟨j, hj2⟩ = v := List.getElem_set_self _
  exact List.mem_iff_getElem.mpr ⟨j, hj2, this⟩

theorem getToken_ok (parts : List String) (i : Nat) (t : String)
    (h : getToken parts i = .ok t) : parts[i]? = some t := by
  unfold getToken at h
  cases he : parts[i]? with
  | none => rw [he] at h; cases h
  | some u => rw [he] at h; cases h; rfl

theorem setConstValue_fields (s : ParserState) (v : Int) :
    (setConstValue s v).constants = s.constants ∧
    (setConstValue s v).value_to_name = s.value_to_name ∧
    (setConstValue s v).aliases = s.aliases ∧
    (setConstValue s v).pending_aliases = s.pending_aliases ∧
    (setConstValue s v).tmnum_by_value = s.tmnum_by_value ∧
    (setConstValue s v).special_values = s.special_values ∧
    (setConstValue s v).numeric_defines = upd s.numeric_defines "const_value" v ∧
    (setConstValue s v).const_value = some v ∧
    (setConstValue s v).skipping = s.skipping := by
  refine ⟨rfl, rfl, rfl, rfl, rfl, rfl, rfl, rfl, rfl⟩

theorem setNumericDefine_fields (s : ParserState) (name : String) (v : Int) (t : Bool) :
    (setNumericDefine s name v t).constants = s.constants ∧
    (setNumericDefine s name v t).value_to_name = s.value_to_name ∧
    (setNumericDefine s name v t).aliases = s.aliases ∧
    (setNumericDefine s name v t).pending_aliases = s.pending_aliases ∧
    (setNumericDefine s name v t).tmnum_by_value = s.tmnum_by_value ∧
    (setNumericDefine s name v t).numeric_defines = upd s.numeric_defines name v ∧
    (setNumericDefine s name v t).const_value = s.const_value ∧
    (setNumericDefine s name v t).skipping = s.skipping := by
  unfold setNumericDefine
  split <;> exact ⟨rfl, rfl, rfl, rfl, rfl, rfl, rfl, rfl⟩

theorem defStoreNumeric_fields (s : ParserState) (name : String) (v : Int) :
    (defStoreNumeric s name v).constants = s.constants ∧
    (defStoreNumeric s name v).value_to_name = s.value_to_name ∧
    (defStoreNumeric s name v).aliases = s.aliases ∧
    (defStoreNumeric s name v).pending_aliases = s.pending_aliases ∧
    (defStoreNumeric s name v).numeric_defines = upd s.numeric_defines name v ∧
    (defStoreNumeric s name v).const_value = s.const_value ∧
    (defStoreNumeric s name v).skipping = s.skipping := by
  unfold defStoreNumeric
  obtain ⟨h1, h2, h3, h4, h5, h6, h7, h8⟩ := setNumericDefine_fields s name v true
  split <;> exact ⟨h1, h2, h3, h4, h6, h7, h8⟩

theorem registerAlias_of_some (s : ParserState) (name : String) (v : Int) (c : String)
    (h : s.value_to_name v = some c) :
    (registerAlias s name v).constants = s.constants ∧
    (registerAlias s name v).value_to_name = s.value_to_name ∧
    (registerAlias s name v).aliases = upd s.aliases name c ∧
    (registerAlias s name v).pending_aliases = s.pending_aliases ∧
    (registerAlias s name v).tmnum_by_value = s.tmnum_by_value ∧
    (registerAlias s name v).numeric_defines = upd s.numeric_defines name v ∧
    (registerAlias s name v).const_value = s.const_value ∧
    (registerAlias s name v).skipping = s.skipping := by
  obtain ⟨h1, h2, h3, h4, h5, h6, h7, h8⟩ := setNumericDefine_fields s name v false
  have hm : (setNumericDefine s name v false).value_to_name v = some c := by rw [h2, h]
  simp only [registerAlias, hm]
  refine ⟨?_, ?_, ?_, ?_, ?_, ?_, ?_, ?_⟩ <;>
    simp [h1, h2, h3, h4, h5, h6, h7, h8]

theorem tmhm_not_tmnum : pyEndsWith "__tmhm_value__" "_TMNUM" = false := by decide

theorem hmvalue_not_tmnum : pyEndsWith "HM_VALUE" "_TMNUM" = false := by decide

/-! ### Success-shape characterizations of the directive handlers -/

theorem handleConstNext_ok (s : ParserState) (line : String) (s' : ParserState)
    (h : handleConstNext s line = .ok s') :
    ∃ first value_str v, pySplitMax1 line = [first, value_str] ∧
      evaluateExpression s value_str = .ok v ∧
      s' = setConstValue (ensureLength s v) v := by
  unfold handleConstNext at h
  rcases hsp : pySplitMax1 line with _ | ⟨first, _ | ⟨value_str, _ | ⟨x, xs⟩⟩⟩ <;>
      rw [hsp] at h <;> simp only [] at h
  · cases h
  · cases h
  · cases he : evaluateExpression s value_str with
    | error e => rw [he] at h; cases h
    | ok v =>
      rw [he] at h
      simp only [] at h
      cases h
      exact ⟨first, value_str, v, rfl, he, rfl⟩
  · cases h

theorem handleConst_ok (s : ParserState) (line : String) (s' : ParserState)
    (h : handleConst s line = .ok s') :
    ∃ name cv cs, (pySplit line)[1]? = some name ∧ s.const_value = some cv ∧
      pyListSet (ensureLength s cv).constants cv (some name) = .ok cs ∧
      s' = resolvePendingAliases (setConstValue (setNumericDefine
        { ensureLength s cv with
            constants := cs
            value_to_name := upd (ensureLength s cv).value_to_name cv name }
        name cv false) (cv + 1)) := by
  simp only [handleConst] at h
  cases hg : getToken (pySplit line) 1 with
  | error e => rw [hg] at h; cases h
  | ok name =>
    rw [hg] at h
    simp only [] at h
    cases hcv : s.const_value with
    | none => rw [hcv] at h; cases h
    | some cv =>
      rw [hcv] at h
      simp only [] at h
      cases hset : pyListSet (ensureLength s cv).constants cv (some name) with
      | error e => rw [hset] at h; cases h
      | ok cs =>
        rw [hset] at h
        simp only [] at h
        cases h
        exact ⟨name, cv, cs, getToken_ok _ _ _ hg, rfl, hset, rfl⟩

theorem assignBlock_fields (s : ParserState) (cv : Int) (cs : List (Option String))
    (name : String) (s1 : ParserState)
    (hs1 : s1 = resolvePendingAliases (setConstValue (setNumericDefine
      { ensureLength s cv with
          constants := cs
          value_to_name := upd (ensureLength s cv).value_to_name cv name }
      name cv false) (cv + 1))) :
    s1.constants = cs ∧
    s1.value_to_name = upd s.value_to_name cv name ∧
    s1.numeric_defines = upd (upd s.numeric_defines name cv) "const_value" (cv + 1) ∧
    s1.const_value = some (cv + 1) ∧
    s1.skipping = s.skipping ∧
    s1.tmnum_by_value = s.tmnum_by_value ∧
    s1.special_values = s.special_values ∧
    (s.pending_aliases = [] → s1.pending_aliases = [] ∧ s1.aliases = s.aliases) := by
  subst hs1
  refine ⟨?_, ?_, ?_, ?_, ?_, ?_, ?_, fun hp => ?_⟩
  · rw [resolvePending_constants]; simp [setConstValue, setNumericDefine]
  · rw [resolvePending_value_to_name]
    simp [setConstValue, setNumericDefine, ensureLength_value_to_name]
  · rw [resolvePending_defines]
    simp [setConstValue, setNumericDefine, ensureLength_defines]
  · rw [resolvePending_const_value]; simp [setConstValue, setNumericDefine]
  · rw [resolvePending_skipping]
    simp [setConstValue, setNumericDefine, ensureLength_skipping]
  · rw [resolvePending_tmnum]
    simp [setConstValue, setNumericDefine, ensureLength_tmnum]
  · rw [resolvePending_special]
    simp [setConstValue, setNumericDefine, ensureLength_special]
  · have hpend : (setConstValue (setNumericDefine
        { ensureLength s cv with
            constants := cs
            value_to_name := upd (ensureLength s cv).value_to_name cv name }
        name cv false) (cv + 1)).pending_aliases = [] := by
      simp [setConstValue, setNumericDefine, ensureLength_pending, hp]
    rw [resolvePending_of_nil _ hpend]
    refine ⟨hpend, ?_⟩
    simp [setConstValue, setNumericDefine, ensureLength_aliases]

theorem handleAddTm_ok (s : ParserState) (line : String) (s' : ParserState)
    (h : handleAddTm s line = .ok s') :
    ∃ move cv cs t, (pySplit line)[1]? = some move ∧ s.const_value = some cv ∧
      pyListSet (ensureLength s cv).constants cv (some ("TM_" ++ move)) = .ok cs ∧
      s.numeric_defines "__tmhm_value__" = some t ∧
      s'.constants = cs ∧
      s'.value_to_name = upd s.value_to_name cv ("TM_" ++ move) ∧
      s'.const_value = some (cv + 1) ∧
      s'.skipping = s.skipping ∧
      s'.numeric_defines "__tmhm_value__" = some (t + 1) ∧
      (s.pending_aliases = [] →
        s'.pending_aliases = [] ∧ s'.aliases = s.aliases) := by
  simp only [handleAddTm] at h
  cases hg : getToken (pySplit line) 1 with
  | error e => rw [hg] at h; cases h
  | ok move =>
    rw [hg] at h
    simp only [] at h
    cases hcv : s.const_value with
    | none => rw [hcv] at h; cases h
    | some cv =>
      rw [hcv] at h
      simp only [] at h
      cases hset : pyListSet (ensureLength s cv).constants cv (some ("TM_" ++ move)) with
      | error e => rw [hset] at h; cases h
      | ok cs =>
        rw [hset] at h
        simp only [] at h
        obtain ⟨b1, b2, b3, b4, b5, b6, b7, b8⟩ := assignBlock_fields s cv cs
          ("TM_" ++ move) _ rfl
        cases ht : (resolvePendingAliases (setConstValue (setNumericDefine
            { ensureLength s cv with
                constants := cs
                value_to_name := upd (ensureLength s cv).value_to_name cv ("TM_" ++ move) }
            ("TM_" ++ move) cv false) (cv + 1))).numeric_defines "__tmhm_value__" with
        | none => rw [ht] at h; cases h
        | some t =>
          rw [ht] at h
          simp only [] at h
          cases h
          have htm : s.numeric_defines "__tmhm_value__" = some t := by
            rw [b3, upd_ne _ "const_value" "__tmhm_value__" _ (by decide),
              upd_ne _ ("TM_" ++ move) "__tmhm_value__" _
                (ne_of_data_head "__tmhm_value__" ("TM_" ++ move) '_' 'T' _ _ rfl rfl
                  (by decide))] at ht
            exact ht
          simp [setNumericDefine, apply_ite, ensureLength_value_to_name] at b1 b2 b4 b5 b8
          refine ⟨move, cv, cs, t, getToken_ok _ _ _ hg, rfl, hset, htm,
            ?_, ?_, ?_, ?_, ?_, ?_⟩
          · simp [setNumericDefine, apply_ite, ensureLength_value_to_name, b1]
          · simp [setNumericDefine, apply_ite, ensureLength_value_to_name, b2]
          · simp [setNumericDefine, apply_ite, ensureLength_value_to_name, b4]
          · simp [setNumericDefine, apply_ite, ensureLength_value_to_name, b5]
          · simp [setNumericDefine, apply_ite, ensureLength_value_to_name, upd_self,
              tmhm_not_tmnum, hmvalue_not_tmnum]
          · intro hp
            obtain ⟨hp1, hp2⟩ := b8 hp
            constructor
            · simp [setNumericDefine, apply_ite, ensureLength_value_to_name, hp1]
            · simp [setNumericDefine, apply_ite, ensureLength_value_to_name, hp2]

theorem handleAddHm_ok (s : ParserState) (line : String) (s' : ParserState)
    (h : handleAddHm s line = .ok s') :
    ∃ move cv cs t, (pySplit line)[1]? = some move ∧ s.const_value = some cv ∧
      pyListSet (ensureLength s cv).constants cv (some ("HM_" ++ move)) = .ok cs ∧
      s.numeric_defines "__tmhm_value__" = some t ∧
      s'.constants = cs ∧
      s'.value_to_name = upd s.value_to_name cv ("HM_" ++ move) ∧
      s'.const_value = some (cv + 1) ∧
      s'.skipping = s.skipping ∧
      s'.numeric_defines "__tmhm_value__" = some (t + 1) ∧
      (s.pending_aliases = [] →
        s'.pending_aliases = [] ∧ s'.aliases = s.aliases) := by
  simp only [handleAddHm] at h
  cases hg : getToken (pySplit line) 1 with
  | error e => rw [hg] at h; cases h
  | ok move =>
    rw [hg] at h
    simp only [] at h
    cases hcv : s.const_value with
    | none => rw [hcv] at h; cases h
    | some cv =>
      rw [hcv] at h
      simp only [] at h
      cases hset : pyListSet (ensureLength s cv).constants cv (some ("HM_" ++ move)) with
      | error e => rw [hset] at h; cases h
      | ok cs =>
        rw [hset] at h
        simp only [] at h
        obtain ⟨b1, b2, b3, b4, b5, b6, b7, b8⟩ := assignBlock_fields s cv cs
          ("HM_" ++ move) _ rfl
        cases hnum : (resolvePendingAliases (setConstValue (setNumericDefine
            { ensureLength s cv with
                constants := cs
                value_to_name := upd (ensureLength s cv).value_to_name cv ("HM_" ++ move) }
            ("HM_" ++ move) cv false) (cv + 1))).numeric_defines "NUM_TMS" with
        | none => rw [hnum] at h; cases h
        | some n =>
          rw [hnum] at h
          simp only [] at h
          cases ht : (resolvePendingAliases (setConstValue (setNumericDefine
              { ensureLength s cv with
                  constants := cs
                  value_to_name := upd (ensureLength s cv).value_to_name cv ("HM_" ++ move) }
              ("HM_" ++ move) cv false) (cv + 1))).numeric_defines "__tmhm_value__" with
          | none => rw [ht] at h; cases h
          | some t =>
            rw [ht] at h
            simp only [] at h
            cases h
            have htm : s.numeric_defines "__tmhm_value__" = some t := by
              rw [b3, upd_ne _ "const_value" "__tmhm_value__" _ (by decide),
                upd_ne _ ("HM_" ++ move) "__tmhm_value__" _
                  (ne_of_data_head "__tmhm_value__" ("HM_" ++ move) '_' 'H' _ _ rfl rfl
                    (by decide))] at ht
              exact ht
            simp [setNumericDefine, apply_ite, ensureLength_value_to_name] at b1 b2 b4 b5 b8
            refine ⟨move, cv, cs, t, getToken_ok _ _ _ hg, rfl, hset, htm,
              ?_, ?_, ?_, ?_, ?_, ?_⟩
            · simp [setNumericDefine, apply_ite, ensureLength_value_to_name, b1]
            · simp [setNumericDefine, apply_ite, ensureLength_value_to_name, b2]
            · simp [setNumericDefine, apply_ite, ensureLength_value_to_name, b4]
            · simp [setNumericDefine, apply_ite, ensureLength_value_to_name, b5]
            · simp [setNumericDefine, apply_ite, ensureLength_value_to_name, upd_self,
              tmhm_not_tmnum, hmvalue_not_tmnum]
            · intro hp
              obtain ⟨hp1, hp2⟩ := b8 hp
              constructor
              · simp [setNumericDefine, apply_ite, ensureLength_value_to_name, hp1]
              · simp [setNumericDefine, apply_ite, ensureLength_value_to_name, hp2]

theorem handleDef_ok (s : ParserState) (line : String) (s' : ParserState)
    (h : handleDef s line = .ok s') :
    ∃ name, (pySplit line)[1]? = some name ∧
      ((∃ old inc, s.numeric_defines name = some old ∧
          s' = setNumericDefine s name (old + inc) true) ∨
       (∃ v, s' = defStoreNumeric s name v) ∨
       (∃ v c, s.value_to_name v = some c ∧ s' = registerAlias s name v) ∨
       s' = s) := by
  simp only [handleDef] at h
  cases hg : getToken (pySplit line) 1 with
  | error e => rw [hg] at h; cases h
  | ok name =>
    rw [hg] at h
    simp only [] at h
    refine ⟨name, getToken_ok _ _ _ hg, ?_⟩
    split at h
    · cases hl : (pySplit line).getLast? with
      | none => rw [hl] at h; cases h
      | some last =>
        rw [hl] at h
        simp only [] at h
        cases he : evaluateExpression s last with
        | error e => rw [he] at h; cases h
        | ok inc =>
          rw [he] at h
          simp only [] at h
          cases hd : s.numeric_defines name with
          | none => rw [hd] at h; cases h
          | some old =>
            rw [hd] at h
            simp only [] at h
            cases h
            exact Or.inl ⟨old, inc, rfl, rfl⟩
    · split at h
      · cases he : evaluateExpression s (String.intercalate " " ((pySplit line).drop 3)) with
        | error e => rw [he] at h; cases h
        | ok v =>
          rw [he] at h
          simp only [] at h
          cases h
          exact Or.inr (Or.inl ⟨v, rfl⟩)
      · split at h
        · cases he : evaluateExpression s
              (String.intercalate " " ((pySplit line).drop 3)) with
          | error e => rw [he] at h; cases h
          | ok v =>
            rw [he] at h
            simp only [] at h
            split at h
            · rename_i t canonical heq1 heq2
              split at h
              · cases h
                exact Or.inr (Or.inr (Or.inl ⟨v, canonical, heq2, rfl⟩))
              · cases h
                exact Or.inr (Or.inl ⟨v, rfl⟩)
            · cases h
              exact Or.inr (Or.inl ⟨v, rfl⟩)
        · cases h
          exact Or.inr (Or.inr (Or.inr rfl))

/-! ### Case analysis of one interpreter step -/

theorem dispatchLine_cases (s : ParserState) (line : String) (s' : ParserState)
    (h : dispatchLine s line = .ok s') :
    (line = "const_def" ∧ s' = handleConstDef s) ∨
    (line ≠ "const_def" ∧ pyStartsWith line "const_next" = true ∧
      handleConstNext s line = .ok s') ∨
    (line ≠ "const_def" ∧ pyStartsWith line "const_next" = false ∧
      pyStartsWith line "const " = true ∧ handleConst s line = .ok s') ∨
    (line ≠ "const_def" ∧ pyStartsWith line "const_next" = false ∧
      pyStartsWith line "const " = false ∧ pyStartsWith line "add_hm" = true ∧
      handleAddHm s line = .ok s') ∨
    (line ≠ "const_def" ∧ pyStartsWith line "const_next" = false ∧
      pyStartsWith line "const " = false ∧ pyStartsWith line "add_hm" = false ∧
      pyStartsWith line "add_tm" = true ∧ handleAddTm s line = .ok s') ∨
    (line ≠ "const_def" ∧ pyStartsWith line "const_next" = false ∧
      pyStartsWith line "const " = false ∧ pyStartsWith line "add_hm" = false ∧
      pyStartsWith line "add_tm" = false ∧ pyStartsWith line "ASSERT" = true ∧
      s' = s) ∨
    (line ≠ "const_def" ∧ pyStartsWith line "const_next" = false ∧
      pyStartsWith line "const " = false ∧ pyStartsWith line "add_hm" = false ∧
      pyStartsWith line "add_tm" = false ∧ pyStartsWith line "ASSERT" = false ∧
      pyStartsWith line "DEF " = true ∧ handleDef s line = .ok s') ∨
    (line ≠ "const_def" ∧ pyStartsWith line "const_next" = false ∧
      pyStartsWith line "const " = false ∧ pyStartsWith line "add_hm" = false ∧
      pyStartsWith line "add_tm" = false ∧ pyStartsWith line "ASSERT" = false ∧
      pyStartsWith line "DEF " = false ∧ s' = s) := by
  unfold dispatchLine at h
  split_ifs at h with h1 h2 h3 h4 h5 h6 h7
  · cases h; exact Or.inl ⟨h1, rfl⟩
  · exact Or.inr (Or.inl ⟨h1, h2, h⟩)
  · exact Or.inr (Or.inr (Or.inl ⟨h1, by simpa using h2, h3, h⟩))
  · exact Or.inr (Or.inr (Or.inr (Or.inl ⟨h1, by simpa using h2, by simpa using h3,
      h4, h⟩)))
  · exact Or.inr (Or.inr (Or.inr (Or.inr (Or.inl ⟨h1, by simpa using h2,
      by simpa using h3, by simpa using h4, h5, h⟩))))
  · cases h
    exact Or.inr (Or.inr (Or.inr (Or.inr (Or.inr (Or.inl ⟨h1, by simpa using h2,
      by simpa using h3, by simpa using h4, by simpa using h5, h6, rfl⟩)))))
  · exact Or.inr (Or.inr (Or.inr (Or.inr (Or.inr (Or.inr (Or.inl ⟨h1,
      by simpa using h2, by simpa using h3, by simpa using h4, by simpa using h5,
      by simpa using h6, h7, h⟩))))))
  · cases h
    exact Or.inr (Or.inr (Or.inr (Or.inr (Or.inr (Or.inr (Or.inr ⟨h1,
      by simpa using h2, by simpa using h3, by simpa using h4, by simpa using h5,
      by simpa using h6, by simpa using h7, rfl⟩))))))

theorem processLine_cases (s : ParserState) (raw : String) (s' : ParserState)
    (h : processLine s raw = .ok s') :
    (stripComments raw = "" ∧ s' = s) ∨
    (stripComments raw ≠ "" ∧ pyStartsWith (stripComments raw) "MACRO" = true ∧
      s' = { s with skipping := true }) ∨
    (stripComments raw ≠ "" ∧ pyStartsWith (stripComments raw) "MACRO" = false ∧
      pyStartsWith (stripComments raw) "ENDM" = true ∧
      s' = { s with skipping := false }) ∨
    (stripComments raw ≠ "" ∧ pyStartsWith (stripComments raw) "MACRO" = false ∧
      pyStartsWith (stripComments raw) "ENDM" = false ∧ s.skipping = true ∧ s' = s) ∨
    (stripComments raw ≠ "" ∧ pyStartsWith (stripComments raw) "MACRO" = false ∧
      pyStartsWith (stripComments raw) "ENDM" = false ∧ s.skipping = false ∧
      dispatchLine s (stripComments raw) = .ok s') := by
  unfold processLine at h
  by_cases h1 : stripComments raw = ""
  · rw [if_pos h1] at h
    cases h
    exact Or.inl ⟨h1, rfl⟩
  · rw [if_neg h1] at h
    by_cases h2 : pyStartsWith (stripComments raw) "MACRO" = true
    · rw [if_pos h2] at h
      cases h
      exact Or.inr (Or.inl ⟨h1, h2, rfl⟩)
    · rw [if_neg h2] at h
      by_cases h3 : pyStartsWith (stripComments raw) "ENDM" = true
      · rw [if_pos h3] at h
        cases h
        exact Or.inr (Or.inr (Or.inl ⟨h1, by simpa using h2, h3, rfl⟩))
      · rw [if_neg h3] at h
        by_cases h4 : s.skipping = true
        · rw [if_pos h4] at h
          cases h
          exact Or.inr (Or.inr (Or.inr (Or.inl ⟨h1, by simpa using h2,
            by simpa using h3, h4, rfl⟩)))
        · rw [if_neg h4] at h
          exact Or.inr (Or.inr (Or.inr (Or.inr ⟨h1, by simpa using h2,
            by simpa using h3, by simpa using h4, h⟩)))

/-! ### The pending-alias queue stays empty -/

theorem pending_step (s : ParserState) (raw : String) (s' : ParserState)
    (h : processLine s raw = .ok s') (hp : s.pending_aliases = []) :
    s'.pending_aliases = [] := by
  rcases processLine_cases s raw s' h with
    ⟨_, rfl⟩ | ⟨_, _, rfl⟩ | ⟨_, _, _, rfl⟩ | ⟨_, _, _, _, rfl⟩ | ⟨_, _, _, _, hd⟩
  · exact hp
  · exact hp
  · exact hp
  · exact hp
  · rcases dispatchLine_cases s _ s' hd with
      ⟨_, rfl⟩ | ⟨_, _, hc⟩ | ⟨_, _, _, hc⟩ | ⟨_, _, _, _, hc⟩ | ⟨_, _, _, _, _, hc⟩ |
      ⟨_, _, _, _, _, _, rfl⟩ | ⟨_, _, _, _, _, _, _, hc⟩ | ⟨_, _, _, _, _, _, _, rfl⟩
    · show (ensureLength (setConstValue s 0) 0).pending_aliases = []
      rw [ensureLength_pending]
      simpa [setConstValue] using hp
    · rcases handleConstNext_ok _ _ _ hc with ⟨_, _, v, _, _, rfl⟩
      rw [(setConstValue_fields _ _).2.2.2.1, ensureLength_pending]
      exact hp
    · rcases handleConst_ok _ _ _ hc with ⟨name, cv, cs, _, _, _, rfl⟩
      exact ((assignBlock_fields s cv cs name _ rfl).2.2.2.2.2.2.2 hp).1
    · rcases handleAddHm_ok _ _ _ hc with
        ⟨move, cv, cs, t, _, _, _, _, _, _, _, _, _, hpp⟩
      exact (hpp hp).1
    · rcases handleAddTm_ok _ _ _ hc with
        ⟨move, cv, cs, t, _, _, _, _, _, _, _, _, _, hpp⟩
      exact (hpp hp).1
    · exact hp
    · rcases handleDef_ok _ _ _ hc with ⟨name, _, hbr⟩
      rcases hbr with ⟨old, inc, _, rfl⟩ | ⟨v, rfl⟩ | ⟨v, c, hvc, rfl⟩ | rfl
      · rw [(setNumericDefine_fields s name (old + inc) true).2.2.2.1]; exact hp
      · rw [(defStoreNumeric_fields s name v).2.2.2.1]; exact hp
      · rw [(registerAlias_of_some s name v c hvc).2.2.2.1]; exact hp
      · exact hp
    · exact hp

theorem pending_run (lines : List String) (s0 s : ParserState)
    (h : processLines s0 lines = .ok s) (hp : s0.pending_aliases = []) :
    s.pending_aliases = [] := by
  induction lines generalizing s0 with
  | nil => cases h; exact hp
  | cons raw rest ih =>
    simp only [processLines] at h
    cases hpl : processLine s0 raw with
    | error e => rw [hpl] at h; cases h
    | ok s1 =>
      rw [hpl] at h
      exact ih s1 h (pending_step _ _ _ hpl hp)

/-- C9: at every point during a parse — i.e. after successfully processing any
list of raw lines from the initial state — the pending-alias queue is empty:
`_register_alias` only ever takes its immediate-resolution branch, so the
enqueue branch is unreachable and every alias in the final map was resolved
immediately at its declaration. -/
theorem c9_pending_queue_always_empty (lines : List String) (s : ParserState)
    (h : processLines initState lines = .ok s) : s.pending_aliases = [] :=
  pending_run lines initState s h rfl

/-- Witness for C9 at a concrete stream (a comment-only line leaves the
state unchanged, so the resulting state is explicit). -/
theorem c9_pending_queue_always_empty_witness :
    processLines initState ["; item ids", "ASSERT TRUE"] = .ok initState ∧
    initState.pending_aliases = [] :=
  ⟨rfl, c9_pending_queue_always_empty ["; item ids", "ASSERT TRUE"] initState rfl⟩

/-- C1 counterexample: on the claim's exact input stream the parse succeeds,
yet the returned alias map has no entry for `ALIAS_LATER` (and the symbol at
index 5 is `QUX`), contradicting the claimed deferred resolution
`ALIAS_LATER ↦ QUX`. -/
theorem c1_counterexample :
    (parse ["DEF ALIAS_LATER EQU 5", "const_def", "const_next 5",
        "const QUX"]).toOption.map
      (fun o => (o.aliases "ALIAS_LATER", o.constants)) =
    some (none, [none, none, none, none, none, some "QUX"]) := by
  decide

/-- C1 amended: for the stream `DEF ALIAS_LATER EQU 5` / `const_def` /
`const_next 5` / `const QUX`, the parse succeeds but records `ALIAS_LATER` as
a numeric define published in the special-values snapshot with value 5 — not
as an alias: the `EQU` alias branch requires the expression to be the literal
canonical name of an already-named index, so a numeric target with no
canonical name is never parked as pending. -/
theorem c1_amended :
    (parse ["DEF ALIAS_LATER EQU 5", "const_def", "const_next 5",
        "const QUX"]).toOption.map
      (fun o => (o.aliases "ALIAS_LATER", o.special_values "ALIAS_LATER",
        o.constants[5]?)) =
    some (none, some 5, some (some "QUX")) := by
  decide

/-- C2 counterexample: the stream consisting of the bare token `const` parses
successfully (the line matches no dispatch prefix, since the `const` branch
requires a trailing space), contradicting the claimed fatal
`MalformedDirective` abort. -/
theorem c2_counterexample : exceptOk (parse ["const"]) = true := rfl

/-- C2 amended: a line consisting of the bare token `const` matches no
recognized directive prefix (the `const` dispatch requires `"const "` with a
trailing space) and is silently ignored, so the parse succeeds with an empty
symbol table; directives that do match a multi-token prefix but lack their
argument — `const_next`, `add_tm`, `add_hm` with no operand — abort the whole
parse with an error and produce no output tuple. -/
theorem c2_amended :
    (parse ["const"]).toOption.map (fun o => o.constants) = some [] ∧
    parse ["const_next"] =
      .error (.valueError "not enough values to unpack (expected 2, got 1)") ∧
    parse ["add_tm"] = .error .indexError ∧
    parse ["add_hm"] = .error .indexError := by
  exact ⟨by decide, rfl, rfl, rfl⟩

/-! ### C3: `const` before the counter is established -/

theorem startsWith_const_space (line : String)
    (h : pyStartsWith line "const " = true) :
    line ≠ "" ∧ pyStartsWith line "MACRO" = false ∧
    pyStartsWith line "ENDM" = false ∧ line ≠ "const_def" ∧
    pyStartsWith line "const_next" = false := by
  rw [pyStartsWith, List.isPrefixOf_iff_prefix] at h
  obtain ⟨r, hr⟩ := h
  have hl : line.toList = 'c' :: 'o' :: 'n' :: 's' :: 't' :: ' ' :: r := hr.symm
  refine ⟨?_, ?_, ?_, ?_, ?_⟩
  · intro e
    rw [e] at hl
    cases hl
  · show "MACRO".toList.isPrefixOf line.toList = false
    rw [hl]
    rfl
  · show "ENDM".toList.isPrefixOf line.toList = false
    rw [hl]
    rfl
  · intro e
    rw [e] at hl
    simp at hl
  · show "const_next".toList.isPrefixOf line.toList = false
    rw [hl]
    rfl

theorem noInit_step (s : ParserState) (raw : String) (s' : ParserState)
    (h : processLine s raw = .ok s')
    (hline : noCounterInitLine (stripComments raw) = true)
    (hcv : s.const_value = none) (hsk : s.skipping = false) :
    s'.const_value = none ∧ s'.skipping = false := by
  simp only [noCounterInitLine, Bool.and_eq_true, Bool.not_eq_true',
    Bool.not_eq_true, decide_eq_false_iff_not] at hline
  obtain ⟨⟨hl1, hl2⟩, hl3⟩ := hline
  rcases processLine_cases s raw s' h with
    ⟨_, rfl⟩ | ⟨_, hm, rfl⟩ | ⟨_, _, _, rfl⟩ | ⟨_, _, _, hskip, rfl⟩ |
    ⟨_, _, _, _, hd⟩
  · exact ⟨hcv, hsk⟩
  · rw [hl3] at hm; cases hm
  · exact ⟨hcv, rfl⟩
  · rw [hsk] at hskip; cases hskip
  · rcases dispatchLine_cases s _ s' hd with
      ⟨he, _⟩ | ⟨_, hn, _⟩ | ⟨_, _, _, hc⟩ | ⟨_, _, _, _, hc⟩ | ⟨_, _, _, _, _, hc⟩ |
      ⟨_, _, _, _, _, _, rfl⟩ | ⟨_, _, _, _, _, _, _, hc⟩ | ⟨_, _, _, _, _, _, _, rfl⟩
    · exact absurd he hl1
    · rw [hl2] at hn; cases hn
    · obtain ⟨_, cv, _, _, hsome, _⟩ := handleConst_ok _ _ _ hc
      rw [hcv] at hsome; cases hsome
    · obtain ⟨_, cv, _, _, _, hsome, _⟩ := handleAddHm_ok _ _ _ hc
      rw [hcv] at hsome; cases hsome
    · obtain ⟨_, cv, _, _, _, hsome, _⟩ := handleAddTm_ok _ _ _ hc
      rw [hcv] at hsome; cases hsome
    · exact ⟨hcv, hsk⟩
    · rcases handleDef_ok _ _ _ hc with ⟨name, _, hbr⟩
      rcases hbr with ⟨old, inc, _, rfl⟩ | ⟨v, rfl⟩ | ⟨v, c, hvc, rfl⟩ | rfl
      · rw [(setNumericDefine_fields s name (old + inc) true).2.2.2.2.2.2.1,
          (setNumericDefine_fields s name (old + inc) true).2.2.2.2.2.2.2]
        exact ⟨hcv, hsk⟩
      · rw [(defStoreNumeric_fields s name v).2.2.2.2.2.1,
          (defStoreNumeric_fields s name v).2.2.2.2.2.2]
        exact ⟨hcv, hsk⟩
      · rw [(registerAlias_of_some s name v c hvc).2.2.2.2.2.2.1,
          (registerAlias_of_some s name v c hvc).2.2.2.2.2.2.2]
        exact ⟨hcv, hsk⟩
      · exact ⟨hcv, hsk⟩
    · exact ⟨hcv, hsk⟩

theorem noInit_run (lines : List String) (s0 s : ParserState)
    (h : processLines s0 lines = .ok s)
    (hall : lines.all (fun l => noCounterInitLine (stripComments l)) = true)
    (hcv : s0.const_value = none) (hsk : s0.skipping = false) :
    s.const_value = none ∧ s.skipping = false := by
  induction lines generalizing s0 with
  | nil => cases h; exact ⟨hcv, hsk⟩
  | cons raw rest ih =>
    rw [List.all_cons, Bool.and_eq_true] at hall
    simp only [processLines] at h
    cases hpl : processLine s0 raw with
    | error e => rw [hpl] at h; cases h
    | ok s1 =>
      rw [hpl] at h
      obtain ⟨h1, h2⟩ := noInit_step s0 raw s1 hpl hall.1 hcv hsk
      exact ih s1 h hall.2 h1 h2

/-- C3: if every line before a `const <name>` directive is neither
`const_def`, nor `const_next`, nor a `MACRO` opener (so the counter is never
established and the line is not skipped), and the prefix itself processes
without error, then the whole parse aborts with the uninitialized-counter
`ValueError` and produces no output tuple — regardless of what follows. -/
theorem c3_uninitialized_counter (pre suf : List String) (cl : String)
    (s : ParserState)
    (hpre : pre.all (fun l => noCounterInitLine (stripComments l)) = true)
    (hok : processLines initState pre = .ok s)
    (hcl : pyStartsWith (stripComments cl) "const " = true)
    (hname : 2 ≤ (pySplit (stripComments cl)).length) :
    parse (pre ++ cl :: suf) =
      .error (.valueError "const_def must appear before const declarations.") := by
  obtain ⟨hcv, hsk⟩ := noInit_run pre initState s hok hpre rfl rfl
  obtain ⟨hne, hmac, hendm, hncd, hncn⟩ := startsWith_const_space _ hcl
  have hname1 : ∃ nm, (pySplit (stripComments cl))[1]? = some nm := by
    have : 1 < (pySplit (stripComments cl)).length := by omega
    exact ⟨_, List.getElem?_eq_getElem this⟩
  obtain ⟨nm, hnm⟩ := hname1
  have hstep : processLine s cl =
      .error (.valueError "const_def must appear before const declarations.") := by
    unfold processLine
    rw [if_neg hne, if_neg (by rw [hmac]; exact Bool.false_ne_true),
      if_neg (by rw [hendm]; exact Bool.false_ne_true),
      if_neg (by rw [hsk]; exact Bool.false_ne_true)]
    unfold dispatchLine
    rw [if_neg hncd, if_neg (by rw [hncn]; exact Bool.false_ne_true), if_pos hcl]
    simp only [handleConst,
      show getToken (pySplit (stripComments cl)) 1 = Except.ok nm from by
        unfold getToken; rw [hnm],
      hcv]
  have hsplit := processLines_append pre (cl :: suf) initState
  rw [hok] at hsplit
  unfold parse
  rw [hsplit]
  simp only [processLines]
  rw [hstep]

/-- Witness for C3: the stream whose first directive is `const FOO`. -/
theorem c3_uninitialized_counter_witness :
    ([] : List String).all (fun l => noCounterInitLine (stripComments l)) = true ∧
    pyStartsWith (stripComments "const FOO") "const " = true ∧
    2 ≤ (pySplit (stripComments "const FOO")).length ∧
    parse ["const FOO"] =
      .error (.valueError "const_def must appear before const declarations.") :=
  ⟨rfl, by decide, by decide,
    c3_uninitialized_counter [] [] "const FOO" initState rfl rfl (by decide) (by decide)⟩

/-! ### C5: shared machine-value counter -/

theorem machine_step (s : ParserState) (raw : String) (s' : ParserState)
    (h : processLine s raw = .ok s') (hm : isMachineLine s raw = true) :
    ∃ t, s.numeric_defines "__tmhm_value__" = some t ∧
      s'.numeric_defines "__tmhm_value__" = some (t + 1) := by
  simp only [isMachineLine, Bool.and_eq_true, Bool.not_eq_true',
    decide_eq_false_iff_not] at hm
  obtain ⟨⟨⟨⟨hne, hmac⟩, hendm⟩, hskip⟩, hdisp⟩ := hm
  rcases processLine_cases s raw s' h with
    ⟨he, _⟩ | ⟨_, hm2, _⟩ | ⟨_, _, hm3, _⟩ | ⟨_, _, _, hm4, _⟩ | ⟨_, _, _, _, hd⟩
  · exact absurd he hne
  · rw [hmac] at hm2; cases hm2
  · rw [hendm] at hm3; cases hm3
  · rw [hskip] at hm4; cases hm4
  · simp only [isMachineDispatch, Bool.and_eq_true, Bool.not_eq_true',
      Bool.or_eq_true, decide_eq_false_iff_not] at hdisp
    obtain ⟨⟨⟨hd1, hd2⟩, hd3⟩, hd4⟩ := hdisp
    rcases dispatchLine_cases s _ s' hd with
      ⟨he, _⟩ | ⟨_, hn, _⟩ | ⟨_, _, hc2, _⟩ | ⟨_, _, _, _, hc⟩ | ⟨_, _, _, _, _, hc⟩ |
      ⟨_, _, _, hh, ht, _, _⟩ | ⟨_, _, _, hh, ht, _, _, _⟩ | ⟨_, _, _, hh, ht, _, _, _⟩
    · exact absurd he hd1
    · rw [hd2] at hn; cases hn
    · rw [hd3] at hc2; cases hc2
    · obtain ⟨_, _, _, t, _, _, _, ht1, _, _, _, _, ht2, _⟩ := handleAddHm_ok _ _ _ hc
      exact ⟨t, ht1, ht2⟩
    · obtain ⟨_, _, _, t, _, _, _, ht1, _, _, _, _, ht2, _⟩ := handleAddTm_ok _ _ _ hc
      exact ⟨t, ht1, ht2⟩
    · rcases hd4 with h4 | h4
      · rw [hh] at h4; cases h4
      · rw [ht] at h4; cases h4
    · rcases hd4 with h4 | h4
      · rw [hh] at h4; cases h4
      · rw [ht] at h4; cases h4
    · rcases hd4 with h4 | h4
      · rw [hh] at h4; cases h4
      · rw [ht] at h4; cases h4

theorem tmhm_preserve (s : ParserState) (raw : String) (s' : ParserState)
    (h : processLine s raw = .ok s') (hnm : isMachineLine s raw = false)
    (hsec : secondTokenIsTmhm (stripComments raw) = false) :
    s'.numeric_defines "__tmhm_value__" = s.numeric_defines "__tmhm_value__" := by
  have hsec' : (pySplit (stripComments raw))[1]? ≠ some "__tmhm_value__" := by
    simpa [secondTokenIsTmhm] using hsec
  rcases processLine_cases s raw s' h with
    ⟨_, rfl⟩ | ⟨_, _, rfl⟩ | ⟨_, _, _, rfl⟩ | ⟨_, _, _, _, rfl⟩ | ⟨h1, h2, h3, h4, hd⟩
  · rfl
  · rfl
  · rfl
  · rfl
  · have hmd : isMachineDispatch (stripComments raw) = false := by
      simp only [isMachineLine, h2, h3, h4] at hnm
      simpa [h1] using hnm
    rcases dispatchLine_cases s _ s' hd with
      ⟨_, rfl⟩ | ⟨_, _, hc⟩ | ⟨hx1, hx2, hx3, hc⟩ | ⟨hx1, hx2, hx3, hx4, hc⟩ |
      ⟨hx1, hx2, hx3, hx4, hx5, hc⟩ | ⟨_, _, _, _, _, _, rfl⟩ |
      ⟨_, _, _, _, _, _, _, hc⟩ | ⟨_, _, _, _, _, _, _, rfl⟩
    · show (ensureLength (setConstValue s 0) 0).numeric_defines _ = _
      rw [ensureLength_defines, (setConstValue_fields s 0).2.2.2.2.2.2.1,
        upd_ne _ _ _ _ (by decide)]
    · obtain ⟨_, _, v, _, _, rfl⟩ := handleConstNext_ok _ _ _ hc
      rw [(setConstValue_fields _ _).2.2.2.2.2.2.1, ensureLength_defines,
        upd_ne _ _ _ _ (by decide)]
    · obtain ⟨name, cv, cs, hnm1, _, _, rfl⟩ := handleConst_ok _ _ _ hc
      have hnme : "__tmhm_value__" ≠ name := by
        intro e; rw [← e] at hnm1; exact hsec' hnm1
      rw [(assignBlock_fields s cv cs name _ rfl).2.2.1,
        upd_ne _ _ _ _ (by decide), upd_ne _ _ _ _ hnme]
    · exfalso
      rw [isMachineDispatch, hx2, hx3] at hmd
      simp [hx1, hx4] at hmd
    · exfalso
      rw [isMachineDispatch, hx2, hx3] at hmd
      simp [hx1, hx4, hx5] at hmd
    · rfl
    · rcases handleDef_ok _ _ _ hc with ⟨name, hnm1, hbr⟩
      have hnme : "__tmhm_value__" ≠ name := by
        intro e; rw [← e] at hnm1; exact hsec' hnm1
      rcases hbr with ⟨old, inc, _, rfl⟩ | ⟨v, rfl⟩ | ⟨v, c, hvc, rfl⟩ | rfl
      · rw [(setNumericDefine_fields s name (old + inc) true).2.2.2.2.2.1,
          upd_ne _ _ _ _ hnme]
      · rw [(defStoreNumeric_fields s name v).2.2.2.2.1, upd_ne _ _ _ _ hnme]
      · rw [(registerAlias_of_some s name v c hvc).2.2.2.2.2.1,
          upd_ne _ _ _ _ hnme]
      · rfl
    · rfl

theorem machineSlots_chain (s : ParserState) (lines : List String)
    (hall : lines.all (fun l => !secondTokenIsTmhm (stripComments l)) = true) :
    List.Chain' (fun a b : Int => b = a + 1) (machineSlots s lines) ∧
      (∀ t, (machineSlots s lines).head? = some t →
        s.numeric_defines "__tmhm_value__" = some t) := by
  induction lines generalizing s with
  | nil =>
    refine ⟨List.chain'_nil, fun t ht => ?_⟩
    cases ht
  | cons raw rest ih =>
    rw [List.all_cons, Bool.and_eq_true] at hall
    have hsec : secondTokenIsTmhm (stripComments raw) = false := by
      simpa using hall.1
    simp only [machineSlots]
    cases hpl : processLine s raw with
    | error e =>
      refine ⟨List.chain'_nil, fun t ht => ?_⟩
      cases ht
    | ok s1 =>
      simp only []
      obtain ⟨ihc, ihh⟩ := ih s1 hall.2
      by_cases hm : isMachineLine s raw = true
      · obtain ⟨t, ht1, ht2⟩ := machine_step s raw s1 hpl hm
        rw [if_pos hm, ht1]
        simp only [Option.getD_some]
        refine ⟨List.chain'_cons'.mpr ⟨?_, ihc⟩, fun u hu => ?_⟩
        · intro b hb
          have := ihh b (by simpa using hb)
          rw [ht2] at this
          injection this with this
          omega
        · rw [List.head?_cons] at hu
          injection hu with hu
          rw [hu]
      · rw [if_neg hm]
        refine ⟨ihc, fun u hu => ?_⟩
        rw [← tmhm_preserve s raw s1 hpl (by simpa using hm) hsec]
        exact ihh u hu

/-- C5 amended: along any directive-stream segment in which no line names
`__tmhm_value__` as its second token (i.e. no `DEF __tmhm_value__ ...`
reassigns the shared machine-value counter between machine directives), the
machine-slot numbers consumed by successive `add_tm`/`add_hm` directives
strictly increase by exactly 1 from one machine directive to the next,
however the two kinds are interleaved — the two share one counter with no
separate HM counter. -/
theorem c5_machine_numbering_monotonic (s : ParserState) (lines : List String)
    (hall : lines.all (fun l => !secondTokenIsTmhm (stripComments l)) = true) :
    List.Chain' (fun a b : Int => b = a + 1) (machineSlots s lines) :=
  (machineSlots_chain s lines hall).1

/-- C5 counterexample: a `DEF __tmhm_value__ = 5` between two `add_tm`
directives makes the consumed slot numbers jump from 0 to 5, so the original
claim (quantified over every directive stream) is false. -/
theorem c5_counterexample :
    machineSlots initState ["const_def", "DEF __tmhm_value__ = 0",
      "add_tm FOO", "DEF __tmhm_value__ = 5", "add_tm BAR"] = [0, 5] ∧
    ¬ List.Chain' (fun a b : Int => b = a + 1) [0, 5] := by
  refine ⟨by decide, fun hch => ?_⟩
  have := (List.chain'_cons.mp hch).1
  omega

/-- Witness for C5 at a concrete start state (counter established, numeric
defines present) and a TM directive immediately followed by an HM one. -/
theorem c5_machine_numbering_monotonic_witness :
    (["add_tm PSYCHIC", "add_hm FLASH"].all
      (fun l => !secondTokenIsTmhm (stripComments l))) = true ∧
    List.Chain' (fun a b : Int => b = a + 1)
      (machineSlots
        { initState with
            const_value := some 0
            numeric_defines :=
              upd (upd (fun _ => none) "NUM_TMS" 2) "__tmhm_value__" 2 }
        ["add_tm PSYCHIC", "add_hm FLASH"]) :=
  ⟨by decide, c5_machine_numbering_monotonic _ _ (by decide)⟩

/-! ### C7: symbol-sequence length equals the ensure-length trace maximum -/

theorem length_step (s : ParserState) (raw : String) (s' : ParserState)
    (h : processLine s raw = .ok s') :
    (s'.constants.length : Int) =
      (lineEnsures s (stripComments raw)).foldl (fun L i => max L (i + 1))
        (s.constants.length : Int) := by
  rcases processLine_cases s raw s' h with
    ⟨h1, rfl⟩ | ⟨h1, h2, rfl⟩ | ⟨h1, h2, h3, rfl⟩ | ⟨h1, h2, h3, h4, rfl⟩ |
    ⟨h1, h2, h3, h4, hd⟩
  · simp [lineEnsures, h1]
  · simp [lineEnsures, h1, h2]
  · simp [lineEnsures, h1, h2, h3]
  · simp [lineEnsures, h1, h2, h3, h4]
  · rcases dispatchLine_cases s _ s' hd with
      ⟨hx, rfl⟩ | ⟨hx1, hx2, hc⟩ | ⟨hx1, hx2, hx3, hc⟩ | ⟨hx1, hx2, hx3, hx4, hc⟩ |
      ⟨hx1, hx2, hx3, hx4, hx5, hc⟩ | ⟨hx1, hx2, hx3, hx4, hx5, hx6, rfl⟩ |
      ⟨hx1, hx2, hx3, hx4, hx5, hx6, hx7, hc⟩ | ⟨hx1, hx2, hx3, hx4, hx5, hx6, hx7, rfl⟩
    · have : (handleConstDef s).constants.length =
          (ensureLength (setConstValue s 0) 0).constants.length := rfl
      rw [this]
      simp [lineEnsures, h1, h2, h3, h4, hx]
      rw [ensureLength_length]
      simp [setConstValue, show pyStartsWith "const_def" "MACRO" = false from by decide,
        show pyStartsWith "const_def" "ENDM" = false from by decide]
    · obtain ⟨first, vs, v, hsp, hev, rfl⟩ := handleConstNext_ok _ _ _ hc
      simp only [lineEnsures, h1, h2, h3, h4, hx1, hx2, hsp, hev]
      simp [(setConstValue_fields _ _).1, ensureLength_length]
    · obtain ⟨name, cv, cs, hnm, hcv, hset, rfl⟩ := handleConst_ok _ _ _ hc
      have hlen := pyListSet_length _ _ _ _ hset
      rw [(assignBlock_fields s cv cs name _ rfl).1]
      simp only [lineEnsures, h1, h2, h3, h4, hx1, hx2, hx3, hnm, hcv]
      simp [hlen, ensureLength_length]
    · obtain ⟨move, cv, cs, t, hnm, hcv, hset, _, hcon, _⟩ := handleAddHm_ok _ _ _ hc
      have hlen := pyListSet_length _ _ _ _ hset
      rw [hcon]
      simp only [lineEnsures, h1, h2, h3, h4, hx1, hx2, hx3, hx4, hnm, hcv]
      simp [hlen, ensureLength_length]
    · obtain ⟨move, cv, cs, t, hnm, hcv, hset, _, hcon, _⟩ := handleAddTm_ok _ _ _ hc
      have hlen := pyListSet_length _ _ _ _ hset
      rw [hcon]
      simp only [lineEnsures, h1, h2, h3, h4, hx1, hx2, hx3, hx4, hx5, hnm, hcv]
      simp [hlen, ensureLength_length]
    · simp [lineEnsures, h1, h2, h3, h4, hx1, hx2, hx3, hx4, hx5]
    · rcases handleDef_ok _ _ _ hc with ⟨name, hnm, hbr⟩
      have hcon : s'.constants = s.constants := by
        rcases hbr with ⟨old, inc, _, rfl⟩ | ⟨v, rfl⟩ | ⟨v, c, hvc, rfl⟩ | rfl
        · exact (setNumericDefine_fields s name (old + inc) true).1
        · exact (defStoreNumeric_fields s name v).1
        · exact (registerAlias_of_some s name v c hvc).1
        · rfl
      rw [hcon]
      simp [lineEnsures, h1, h2, h3, h4, hx1, hx2, hx3, hx4, hx5]
    · simp [lineEnsures, h1, h2, h3, h4, hx1, hx2, hx3, hx4, hx5]

theorem length_run (lines : List String) (s0 s : ParserState)
    (h : processLines s0 lines = .ok s) :
    (s.constants.length : Int) =
      (ensureTrace s0 lines).foldl (fun L i => max L (i + 1))
        (s0.constants.length : Int) := by
  induction lines generalizing s0 with
  | nil => cases h; rfl
  | cons raw rest ih =>
    simp only [processLines, ensureTrace] at h ⊢
    cases hpl : processLine s0 raw with
    | error e => rw [hpl] at h; cases h
    | ok s1 =>
      rw [hpl] at h
      simp only []
      rw [List.foldl_append, ← length_step s0 raw s1 hpl]
      exact ih s1 h

theorem foldl_maxF_ge (tr : List Int) (a : Int) :
    a ≤ tr.foldl (fun L i => max L (i + 1)) a := by
  induction tr generalizing a with
  | nil => exact le_refl a
  | cons i tr ih =>
    simp only [List.foldl_cons]
    exact le_trans (le_max_left a (i + 1)) (ih _)

theorem length_mono_run (lines : List String) (s0 s : ParserState)
    (h : processLines s0 lines = .ok s) :
    s0.constants.length ≤ s.constants.length := by
  have := length_run lines s0 s h
  have h2 := foldl_maxF_ge (ensureTrace s0 lines) (s0.constants.length : Int)
  omega

theorem foldl_maxF_succ (tr : List Int) (a b : Int) (hab : a = b + 1) :
    tr.foldl (fun L i => max L (i + 1)) a = tr.foldl max b + 1 := by
  induction tr generalizing a b with
  | nil => simpa using hab
  | cons i tr ih =>
    simp only [List.foldl_cons]
    refine ih _ _ ?_
    rw [hab, max_add_add_right]

theorem injectUnused_constants (s : ParserState) :
    (injectUnusedTmnum s).constants = s.constants := by
  unfold injectUnusedTmnum; split <;> rfl

theorem injectUnused_aliases (s : ParserState) :
    (injectUnusedTmnum s).aliases = s.aliases := by
  unfold injectUnusedTmnum; split <;> rfl

theorem parse_ok (lines : List String) (out : ParseResult)
    (h : parse lines = .ok out) :
    ∃ s, processLines initState lines = .ok s ∧
      out.constants = s.constants ∧
      out.aliases = (resolvePendingAliases s).aliases ∧
      buildTmnumConstants (injectUnusedTmnum (resolvePendingAliases s)) =
        .ok out.tmnum_constants := by
  unfold parse at h
  cases hp : processLines initState lines with
  | error e => rw [hp] at h; cases h
  | ok s =>
    rw [hp] at h
    simp only [] at h
    cases hb : buildTmnumConstants (injectUnusedTmnum (resolvePendingAliases s)) with
    | error e => rw [hb] at h; cases h
    | ok tm =>
      rw [hb] at h
      simp only [] at h
      cases h
      refine ⟨s, rfl, ?_, ?_, hb⟩
      · show (injectUnusedTmnum (resolvePendingAliases s)).constants = s.constants
        rw [injectUnused_constants, resolvePending_constants]
      · show (injectUnusedTmnum (resolvePendingAliases s)).aliases =
          (resolvePendingAliases s).aliases
        rw [injectUnused_aliases]

/-- C7 amended: for every stream on which the parse succeeds and in which at
least one `ensure_length` call occurs, if every index ever passed to
`ensure_length` is nonnegative then the length of the returned ordered symbol
sequence equals one plus the highest such index; moreover the sequence never
shrinks over the run.  (A negative `const_next` target makes `ensure_length` a
no-op, which is what the counterexample exploits.) -/
theorem c7_symbol_sequence_length (lines : List String) (out : ParseResult)
    (hok : parse lines = .ok out)
    (hne : ensureTrace initState lines ≠ [])
    (hnn : ∀ i ∈ ensureTrace initState lines, 0 ≤ i) :
    (out.constants.length : Int) = 1 + (ensureTrace initState lines).foldl max 0 ∧
    (∀ n sn, processLines initState (lines.take n) = .ok sn →
      sn.constants.length ≤ out.constants.length) := by
  obtain ⟨s, hp, hc, _, _⟩ := parse_ok lines out hok
  constructor
  · have hlen := length_run lines initState s hp
    rcases htr : ensureTrace initState lines with _ | ⟨i0, tr⟩
    · exact absurd htr hne
    · rw [htr] at hlen
      have h0 : (0 : Int) ≤ i0 := hnn i0 (by rw [htr]; exact List.mem_cons_self _ _)
      rw [hc, hlen]
      show List.foldl (fun L i => max L (i + 1)) ((initState.constants.length : Int))
          (i0 :: tr) = 1 + List.foldl max 0 (i0 :: tr)
      simp only [List.foldl_cons, initState]
      rw [show ((([] : List (Option String)).length : Int)) = 0 from rfl]
      rw [show max (0 : Int) (i0 + 1) = max 0 i0 + 1 by
        rw [max_eq_right (by omega), max_eq_right h0]]
      rw [foldl_maxF_succ tr _ _ rfl]
      omega
  · intro n sn hsn
    have hsplit := processLines_append (lines.take n) (lines.drop n) initState
    rw [List.take_append_drop, hp, hsn] at hsplit
    rw [hc]
    exact length_mono_run _ _ _ hsplit.symm

/-- C7 counterexample: the one-line stream `const_next 0 - 5` parses
successfully, calls `ensure_length` exactly once with index −5 (a no-op), and
returns a symbol sequence of length 0, not 1 + (−5). -/
theorem c7_counterexample :
    (parse ["const_next 0 - 5"]).toOption.map (fun o => o.constants.length) =
      some 0 ∧
    ensureTrace initState ["const_next 0 - 5"] = [-5] ∧
    (0 : Int) ≠ 1 + (-5) := by
  exact ⟨by decide, by decide, by decide⟩

/-- Witness for C7 on the stream `const_def` / `const FOO`. -/
theorem c7_symbol_sequence_length_witness :
    parse ["const_def", "const FOO"] =
      .ok ⟨[some "FOO"], fun _ => none, fun _ => none, [none], fun _ => none,
        fun _ => none⟩ ∧
    ensureTrace initState ["const_def", "const FOO"] ≠ [] ∧
    (∀ i ∈ ensureTrace initState ["const_def", "const FOO"], (0 : Int) ≤ i) ∧
    ((([some "FOO"] : List (Option String)).length : Int) =
      1 + (ensureTrace initState ["const_def", "const FOO"]).foldl max 0) :=
  ⟨rfl, by decide, by decide,
    (c7_symbol_sequence_length ["const_def", "const FOO"] _ rfl (by decide)
      (by decide)).1⟩

/-! ### C10: the dense machine-number array is never empty -/

theorem foldlM_set_length (d : List (Int × String)) (arr arr' : List (Option String))
    (h : d.foldlM (fun a p => pyListSet a p.1 (some p.2)) arr = .ok arr') :
    arr'.length = arr.length := by
  induction d generalizing arr with
  | nil => cases h; rfl
  | cons p ps ih =>
    rw [List.foldlM_cons] at h
    cases hs : pyListSet arr p.1 (some p.2) with
    | error e => rw [hs] at h; cases h
    | ok a1 =>
      rw [hs] at h
      have h2 : ps.foldlM (fun a p => pyListSet a p.1 (some p.2)) a1 = .ok arr' := h
      rw [ih a1 h2, pyListSet_length _ _ _ _ hs]

theorem insertSorted_length (p : Int × String) (l : List (Int × String)) :
    (insertSorted p l).length = l.length + 1 := by
  induction l with
  | nil => rfl
  | cons q qs ih =>
    unfold insertSorted
    split
    · simp
    · simp [ih]

theorem sortByKey_length (d : List (Int × String)) :
    (sortByKey d).length = d.length := by
  induction d with
  | nil => rfl
  | cons p ps ih =>
    show (insertSorted p (sortByKey ps)).length = ps.length + 1
    rw [insertSorted_length, ih]

theorem buildTmnum_ok_length (s : ParserState) (tm : List (Option String))
    (h : buildTmnumConstants s = .ok tm) : 1 ≤ tm.length := by
  simp only [buildTmnumConstants] at h
  cases hd : s.tmnum_by_value with
  | nil =>
    rw [hd] at h
    simp only [sortByKey] at h
    simp at h
    cases h
    simp
  | cons q qs =>
    rw [hd] at h
    simp only [List.map_cons] at h
    by_cases hmax : 0 ≤ (qs.map Prod.fst).foldl max q.1
    · have := foldlM_set_length _ _ _ h
      rw [this]
      simp only [List.length_replicate]
      omega
    · exfalso
      have hzero : ((qs.map Prod.fst).foldl max q.1 + 1).toNat = 0 := by omega
      rw [hzero] at h
      simp only [List.replicate] at h
      cases hsk : sortByKey (q :: qs) with
      | nil =>
        have := sortByKey_length (q :: qs)
        rw [hsk] at this
        simp at this
      | cons r rs =>
        rw [hsk, List.foldlM_cons, pyListSet_nil] at h
        have h2 : (Except.error PyErr.indexError : Except PyErr (List (Option String))) =
            Except.ok tm := h
        cases h2

theorem tmnum_empty_step (s : ParserState) (raw : String) (s' : ParserState)
    (h : processLine s raw = .ok s')
    (hhm : pyStartsWith (stripComments raw) "add_hm" = false)
    (htm : pyStartsWith (stripComments raw) "add_tm" = false)
    (hun : (pySplit (stripComments raw))[1]? ≠ some "UNUSED_TMNUM")
    (ht : s.tmnum_by_value = []) (hu : s.numeric_defines "UNUSED_TMNUM" = none) :
    s'.tmnum_by_value = [] ∧ s'.numeric_defines "UNUSED_TMNUM" = none := by
  rcases processLine_cases s raw s' h with
    ⟨_, rfl⟩ | ⟨_, _, rfl⟩ | ⟨_, _, _, rfl⟩ | ⟨_, _, _, _, rfl⟩ | ⟨h1, h2, h3, h4, hd⟩
  · exact ⟨ht, hu⟩
  · exact ⟨ht, hu⟩
  · exact ⟨ht, hu⟩
  · exact ⟨ht, hu⟩
  · rcases dispatchLine_cases s _ s' hd with
      ⟨_, rfl⟩ | ⟨_, _, hc⟩ | ⟨_, _, _, hc⟩ | ⟨_, _, _, hx, _⟩ | ⟨_, _, _, _, hx, _⟩ |
      ⟨_, _, _, _, _, _, rfl⟩ | ⟨_, _, _, _, _, _, _, hc⟩ | ⟨_, _, _, _, _, _, _, rfl⟩
    · constructor
      · show (ensureLength (setConstValue s 0) 0).tmnum_by_value = []
        rw [ensureLength_tmnum, (setConstValue_fields s 0).2.2.2.2.1]
        exact ht
      · show (ensureLength (setConstValue s 0) 0).numeric_defines "UNUSED_TMNUM" = none
        rw [ensureLength_defines, (setConstValue_fields s 0).2.2.2.2.2.2.1,
          upd_ne _ _ _ _ (by decide)]
        exact hu
    · obtain ⟨_, _, v, _, _, rfl⟩ := handleConstNext_ok _ _ _ hc
      constructor
      · rw [(setConstValue_fields _ _).2.2.2.2.1, ensureLength_tmnum]
        exact ht
      · rw [(setConstValue_fields _ _).2.2.2.2.2.2.1, ensureLength_defines,
          upd_ne _ _ _ _ (by decide)]
        exact hu
    · obtain ⟨name, cv, cs, hnm, _, _, rfl⟩ := handleConst_ok _ _ _ hc
      have hne : "UNUSED_TMNUM" ≠ name := by
        intro e; rw [← e] at hnm; exact hun hnm
      obtain ⟨_, _, b3, _, _, b6, _, _⟩ := assignBlock_fields s cv cs name _ rfl
      constructor
      · rw [b6]; exact ht
      · rw [b3, upd_ne _ _ _ _ (by decide), upd_ne _ _ _ _ hne]
        exact hu
    · rw [hhm] at hx; cases hx
    · rw [htm] at hx; cases hx
    · exact ⟨ht, hu⟩
    · rcases handleDef_ok _ _ _ hc with ⟨name, hnm, hbr⟩
      have hne : "UNUSED_TMNUM" ≠ name := by
        intro e; rw [← e] at hnm; exact hun hnm
      rcases hbr with ⟨old, inc, _, rfl⟩ | ⟨v, rfl⟩ | ⟨v, c, hvc, rfl⟩ | rfl
      · constructor
        · rw [(setNumericDefine_fields s name (old + inc) true).2.2.2.2.1]; exact ht
        · rw [(setNumericDefine_fields s name (old + inc) true).2.2.2.2.2.1,
            upd_ne _ _ _ _ hne]
          exact hu
      · constructor
        · unfold defStoreNumeric
          rw [if_neg (Ne.symm hne), (setNumericDefine_fields s name v true).2.2.2.2.1]
          exact ht
        · rw [(defStoreNumeric_fields s name v).2.2.2.2.1, upd_ne _ _ _ _ hne]
          exact hu
      · constructor
        · rw [(registerAlias_of_some s name v c hvc).2.2.2.2.1]; exact ht
        · rw [(registerAlias_of_some s name v c hvc).2.2.2.2.2.1,
            upd_ne _ _ _ _ hne]
          exact hu
      · exact ⟨ht, hu⟩
    · exact ⟨ht, hu⟩

theorem tmnum_empty_run (lines : List String) (s0 s : ParserState)
    (h : processLines s0 lines = .ok s) (hno : noTmnumSources lines = true)
    (ht : s0.tmnum_by_value = []) (hu : s0.numeric_defines "UNUSED_TMNUM" = none) :
    s.tmnum_by_value = [] ∧ s.numeric_defines "UNUSED_TMNUM" = none := by
  induction lines generalizing s0 with
  | nil => cases h; exact ⟨ht, hu⟩
  | cons raw rest ih =>
    rw [noTmnumSources, List.all_cons, Bool.and_eq_true] at hno
    simp only [Bool.and_eq_true, Bool.not_eq_true'] at hno
    obtain ⟨⟨⟨hh, htt⟩, huu⟩, hrest⟩ := hno
    simp only [processLines] at h
    cases hpl : processLine s0 raw with
    | error e => rw [hpl] at h; cases h
    | ok s1 =>
      rw [hpl] at h
      obtain ⟨h1, h2⟩ := tmnum_empty_step s0 raw s1 hpl hh htt
        (by simpa using huu) ht hu
      exact ih s1 h hrest h1 h2

/-- C10: for every input stream on which the parse succeeds, the returned
dense machine-number array has length at least 1; and whenever the stream
contains no `add_tm`/`add_hm` directive and no directive naming
`UNUSED_TMNUM`, the array is exactly the one-element list holding the no-name
marker. -/
theorem c10_tmnum_array_never_empty (lines : List String) (out : ParseResult)
    (hok : parse lines = .ok out) :
    1 ≤ out.tmnum_constants.length ∧
    (noTmnumSources lines = true → out.tmnum_constants = [none]) := by
  obtain ⟨s, hp, _, _, hb⟩ := parse_ok lines out hok
  refine ⟨buildTmnum_ok_length _ _ hb, fun hno => ?_⟩
  obtain ⟨h1, h2⟩ := tmnum_empty_run lines initState s hp hno rfl rfl
  have h3 : injectUnusedTmnum (resolvePendingAliases s) = resolvePendingAliases s := by
    unfold injectUnusedTmnum
    rw [resolvePending_defines, h2]
  rw [h3] at hb
  simp only [buildTmnumConstants, resolvePending_tmnum, h1] at hb
  simp only [sortByKey] at hb
  simp at hb
  injection hb with hb
  exact hb.symm

/-- Witness for C10 on the stream `const_def` / `const BULBASAUR`. -/
theorem c10_tmnum_array_never_empty_witness :
    parse ["const_def", "const BULBASAUR"] =
      .ok ⟨[some "BULBASAUR"], fun _ => none, fun _ => none, [none], fun _ => none,
        fun _ => none⟩ ∧
    noTmnumSources ["const_def", "const BULBASAUR"] = true ∧
    1 ≤ ([none] : List (Option String)).length ∧
    ([none] : List (Option String)) = [none] :=
  ⟨rfl, by decide,
    (c10_tmnum_array_never_empty ["const_def", "const BULBASAUR"]
      ⟨[some "BULBASAUR"], fun _ => none, fun _ => none, [none], fun _ => none,
        fun _ => none⟩ rfl).1,
    (c10_tmnum_array_never_empty ["const_def", "const BULBASAUR"]
      ⟨[some "BULBASAUR"], fun _ => none, fun _ => none, [none], fun _ => none,
        fun _ => none⟩ rfl).2 (by decide)⟩

/-! ### C6: alias soundness -/

theorem assign_preserves_mem (s : ParserState) (cv : Int) (name : String)
    (cs : List (Option String))
    (hset : pyListSet (ensureLength s cv).constants cv (some name) = .ok cs)
    (hnone : ∀ w, pyListGet (ensureLength s cv).constants cv ≠ some (some w)) :
    (∀ m : String, some m ∈ s.constants → some m ∈ cs) ∧ some name ∈ cs := by
  obtain ⟨j, hj, hcs, hget⟩ := pyListSet_ok _ _ _ _ hset
  have hjq : (ensureLength s cv).constants[j]? =
      some ((ensureLength s cv).constants.get ⟨j, hj⟩) :=
    List.getElem?_eq_getElem hj
  have hnone2 : (ensureLength s cv).constants.get ⟨j, hj⟩ = none := by
    cases helem : (ensureLength s cv).constants.get ⟨j, hj⟩ with
    | none => rfl
    | some w => exact absurd (by rw [hget, hjq, helem]) (hnone w)
  constructor
  · intro m hm
    rw [hcs]
    refine mem_set_of_ne _ _ _ _ (mem_ensureLength _ _ _ hm) ?_
    rw [hjq, hnone2]
    simp
  · rw [hcs]
    exact mem_set_self _ _ _ hj

theorem good_step (s : ParserState) (raw : String) (s' : ParserState)
    (h : processLine s raw = .ok s')
    (hfresh : lineAssignFresh s (stripComments raw) = true)
    (hg : GoodState s) : GoodState s' := by
  obtain ⟨hp, hv, ha⟩ := hg
  rcases processLine_cases s raw s' h with
    ⟨_, rfl⟩ | ⟨_, _, rfl⟩ | ⟨_, _, _, rfl⟩ | ⟨_, _, _, _, rfl⟩ | ⟨h1, h2, h3, h4, hd⟩
  · exact ⟨hp, hv, ha⟩
  · exact ⟨hp, hv, ha⟩
  · exact ⟨hp, hv, ha⟩
  · exact ⟨hp, hv, ha⟩
  · rcases dispatchLine_cases s _ s' hd with
      ⟨hx1, rfl⟩ | ⟨hx1, hx2, hc⟩ | ⟨hx1, hx2, hx3, hc⟩ | ⟨hx1, hx2, hx3, hx4, hc⟩ |
      ⟨hx1, hx2, hx3, hx4, hx5, hc⟩ | ⟨_, _, _, _, _, _, rfl⟩ |
      ⟨_, _, _, _, _, _, _, hc⟩ | ⟨_, _, _, _, _, _, _, rfl⟩
    · show GoodState (ensureLength (setConstValue s 0) 0)
      refine ⟨?_, ?_, ?_⟩
      · rw [ensureLength_pending]
        exact hp
      · intro v n hvn
        rw [ensureLength_value_to_name] at hvn
        exact mem_ensureLength _ _ _ (hv v n hvn)
      · intro a n han
        rw [ensureLength_aliases] at han
        exact mem_ensureLength _ _ _ (ha a n han)
    · obtain ⟨_, _, v, _, _, rfl⟩ := handleConstNext_ok _ _ _ hc
      refine ⟨?_, ?_, ?_⟩
      · rw [(setConstValue_fields _ _).2.2.2.1, ensureLength_pending]
        exact hp
      · intro w n hwn
        rw [(setConstValue_fields _ _).2.1, ensureLength_value_to_name] at hwn
        show some n ∈ (setConstValue (ensureLength s v) v).constants
        rw [(setConstValue_fields _ _).1]
        exact mem_ensureLength _ _ _ (hv w n hwn)
      · intro a n han
        rw [(setConstValue_fields _ _).2.2.1, ensureLength_aliases] at han
        show some n ∈ (setConstValue (ensureLength s v) v).constants
        rw [(setConstValue_fields _ _).1]
        exact mem_ensureLength _ _ _ (ha a n han)
    · obtain ⟨name, cv, cs, hnm, hcv, hset, rfl⟩ := handleConst_ok _ _ _ hc
      obtain ⟨b1, b2, _, _, _, _, _, b8⟩ := assignBlock_fields s cv cs name _ rfl
      obtain ⟨hp2, hal2⟩ := b8 hp
      have hfr := hfresh
      simp [lineAssignFresh, h1, h2, h3, h4, hx1, hx2, hx3, hnm, hcv] at hfr
      have hnone : ∀ w, pyListGet (ensureLength s cv).constants cv ≠ some (some w) := by
        intro w hw
        rw [hw] at hfr
        simp at hfr
      obtain ⟨hmem, hnamem⟩ := assign_preserves_mem s cv name cs hset hnone
      refine ⟨hp2, ?_, ?_⟩
      · intro v n hvn
        rw [b2] at hvn
        rw [b1]
        by_cases hvcv : v = cv
        · subst hvcv
          rw [upd_self] at hvn
          injection hvn with hvn
          rw [← hvn]
          exact hnamem
        · rw [upd_ne _ _ _ _ hvcv] at hvn
          exact hmem n (hv v n hvn)
      · intro a n han
        rw [hal2] at han
        rw [b1]
        exact hmem n (ha a n han)
    · obtain ⟨move, cv, cs, t, hnm, hcv, hset, _, hcon, hvtn, _, _, _, hpp⟩ :=
        handleAddHm_ok _ _ _ hc
      obtain ⟨hp2, hal2⟩ := hpp hp
      have hfr := hfresh
      simp [lineAssignFresh, h1, h2, h3, h4, hx1, hx2, hx3, hx4, hnm, hcv] at hfr
      have hnone : ∀ w, pyListGet (ensureLength s cv).constants cv ≠ some (some w) := by
        intro w hw
        rw [hw] at hfr
        simp at hfr
      obtain ⟨hmem, hnamem⟩ := assign_preserves_mem s cv ("HM_" ++ move) cs hset hnone
      refine ⟨hp2, ?_, ?_⟩
      · intro v n hvn
        rw [hvtn] at hvn
        rw [hcon]
        by_cases hvcv : v = cv
        · subst hvcv
          rw [upd_self] at hvn
          injection hvn with hvn
          rw [← hvn]
          exact hnamem
        · rw [upd_ne _ _ _ _ hvcv] at hvn
          exact hmem n (hv v n hvn)
      · intro a n han
        rw [hal2] at han
        rw [hcon]
        exact hmem n (ha a n han)
    · obtain ⟨move, cv, cs, t, hnm, hcv, hset, _, hcon, hvtn, _, _, _, hpp⟩ :=
        handleAddTm_ok _ _ _ hc
      obtain ⟨hp2, hal2⟩ := hpp hp
      have hfr := hfresh
      simp [lineAssignFresh, h1, h2, h3, h4, hx1, hx2, hx3, hx4, hx5, hnm, hcv] at hfr
      have hnone : ∀ w, pyListGet (ensureLength s cv).constants cv ≠ some (some w) := by
        intro w hw
        rw [hw] at hfr
        simp at hfr
      obtain ⟨hmem, hnamem⟩ := assign_preserves_mem s cv ("TM_" ++ move) cs hset hnone
      refine ⟨hp2, ?_, ?_⟩
      · intro v n hvn
        rw [hvtn] at hvn
        rw [hcon]
        by_cases hvcv : v = cv
        · subst hvcv
          rw [upd_self] at hvn
          injection hvn with hvn
          rw [← hvn]
          exact hnamem
        · rw [upd_ne _ _ _ _ hvcv] at hvn
          exact hmem n (hv v n hvn)
      · intro a n han
        rw [hal2] at han
        rw [hcon]
        exact hmem n (ha a n han)
    · exact ⟨hp, hv, ha⟩
    · rcases handleDef_ok _ _ _ hc with ⟨name, hnm, hbr⟩
      rcases hbr with ⟨old, inc, _, rfl⟩ | ⟨v, rfl⟩ | ⟨v, c, hvc, rfl⟩ | rfl
      · obtain ⟨f1, f2, f3, f4, _, _, _, _⟩ :=
          setNumericDefine_fields s name (old + inc) true
        refine ⟨by rw [f4]; exact hp, ?_, ?_⟩
        · intro w n hwn
          rw [f2] at hwn
          rw [f1]
          exact hv w n hwn
        · intro a n han
          rw [f3] at han
          rw [f1]
          exact ha a n han
      · obtain ⟨f1, f2, f3, f4, _, _, _⟩ := defStoreNumeric_fields s name v
        refine ⟨by rw [f4]; exact hp, ?_, ?_⟩
        · intro w n hwn
          rw [f2] at hwn
          rw [f1]
          exact hv w n hwn
        · intro a n han
          rw [f3] at han
          rw [f1]
          exact ha a n han
      · obtain ⟨f1, f2, f3, f4, _, _, _, _⟩ := registerAlias_of_some s name v c hvc
        refine ⟨by rw [f4]; exact hp, ?_, ?_⟩
        · intro w n hwn
          rw [f2] at hwn
          rw [f1]
          exact hv w n hwn
        · intro a n han
          rw [f3] at han
          rw [f1]
          by_cases hanm : a = name
          · subst hanm
            rw [upd_self] at han
            injection han with han
            rw [← han]
            exact hv v c hvc
          · rw [upd_ne _ _ _ _ hanm] at han
            exact ha a n han
      · exact ⟨hp, hv, ha⟩
    · exact ⟨hp, hv, ha⟩

theorem good_run (lines : List String) (s0 s : ParserState)
    (h : processLines s0 lines = .ok s)
    (hfresh : allAssignsFresh s0 lines = true) (hg : GoodState s0) :
    GoodState s := by
  induction lines generalizing s0 with
  | nil => cases h; exact hg
  | cons raw rest ih =>
    simp only [processLines] at h
    simp only [allAssignsFresh] at hfresh
    cases hpl : processLine s0 raw with
    | error e => rw [hpl] at h; cases h
    | ok s1 =>
      rw [hpl] at h
      rw [hpl] at hfresh
      simp only [Bool.and_eq_true] at hfresh
      exact ih s1 h hfresh.2 (good_step s0 raw s1 hpl hfresh.1 hg)

/-- C6 amended: for every stream on which the parse succeeds AND in which
every symbol assignment lands on a placeholder slot (no canonical name is
ever overwritten — true of the real corpus), every entry of the returned
alias map points to a name present in the returned ordered symbol sequence. -/
theorem c6_alias_soundness (lines : List String) (out : ParseResult)
    (hok : parse lines = .ok out)
    (hfresh : allAssignsFresh initState lines = true)
    (a n : String) (ha : out.aliases a = some n) :
    some n ∈ out.constants := by
  obtain ⟨s, hp, hc, hal, _⟩ := parse_ok lines out hok
  have hg0 : GoodState initState := by
    refine ⟨rfl, ?_, ?_⟩
    · intro v n h
      exact Option.noConfusion h
    · intro a n h
      exact Option.noConfusion h
  have hg : GoodState s := good_run lines initState s hp hfresh hg0
  rw [hal, resolvePending_of_nil s hg.1] at ha
  rw [hc]
  exact hg.2.2 a n ha

/-- C6 counterexample: re-assigning index 0 (via `const_next 0`) replaces
`FOO` with `BAR` in the symbol sequence while the alias `A2 ↦ FOO` recorded
earlier survives, so the parse succeeds with an alias whose target is absent
from the sequence. -/
theorem c6_counterexample :
    (parse ["const_def", "const FOO", "DEF A2 EQU FOO", "const_next 0",
        "const BAR"]).toOption.map (fun o => (o.aliases "A2", o.constants)) =
      some (some "FOO", [some "BAR"]) ∧
    (some "FOO" : Option String) ∉ ([some "BAR"] : List (Option String)) := by
  exact ⟨by decide, by decide⟩

/-- Witness for C6 on the stream `const_def` / `const FOO` /
`DEF A2 EQU FOO`. -/
theorem c6_alias_soundness_witness :
    parse ["const_def", "const FOO", "DEF A2 EQU FOO"] =
      .ok ⟨[some "FOO"], upd (fun _ => none) "A2" "FOO", fun _ => none, [none],
        fun _ => none, fun _ => none⟩ ∧
    allAssignsFresh initState ["const_def", "const FOO", "DEF A2 EQU FOO"] = true ∧
    some "FOO" ∈ ([some "FOO"] : List (Option String)) :=
  ⟨rfl, by decide,
    c6_alias_soundness ["const_def", "const FOO", "DEF A2 EQU FOO"]
      ⟨[some "FOO"], upd (fun _ => none) "A2" "FOO", fun _ => none, [none],
        fun _ => none, fun _ => none⟩ rfl (by decide) "A2" "FOO" rfl⟩

/-! ### C4: HM relative indexing -/

theorem setNumericDefine_mmm (s : ParserState) (name : String) (v : Int) (tr : Bool) :
    (setNumericDefine s name v tr).machine_move_map = s.machine_move_map := by
  unfold setNumericDefine; split <;> rfl

theorem resolvePending_mmm (s : ParserState) :
    (resolvePendingAliases s).machine_move_map = s.machine_move_map := by
  unfold resolvePendingAliases; split <;> rfl

theorem ensureLength_mmm (s : ParserState) (i : Int) :
    (ensureLength s i).machine_move_map = s.machine_move_map := by
  unfold ensureLength; split <;> rfl

theorem handleAddTm_eff (s : ParserState) (line : String) (s' : ParserState)
    (h : handleAddTm s line = .ok s') :
    ∃ move cv cs t, (pySplit line)[1]? = some move ∧ s.const_value = some cv ∧
      pyListSet (ensureLength s cv).constants cv (some ("TM_" ++ move)) = .ok cs ∧
      s.numeric_defines "__tmhm_value__" = some t ∧
      s'.numeric_defines = upd (upd (upd (upd s.numeric_defines ("TM_" ++ move) cv)
        "const_value" (cv + 1)) (move ++ "_TMNUM") t) "__tmhm_value__" (t + 1) ∧
      s'.machine_move_map =
        upd s.machine_move_map ("TM" ++ fmt02 t ++ "_MOVE") move := by
  simp only [handleAddTm] at h
  cases hg : getToken (pySplit line) 1 with
  | error e => rw [hg] at h; cases h
  | ok move =>
    rw [hg] at h
    simp only [] at h
    cases hcv : s.const_value with
    | none => rw [hcv] at h; cases h
    | some cv =>
      rw [hcv] at h
      simp only [] at h
      cases hset : pyListSet (ensureLength s cv).constants cv (some ("TM_" ++ move)) with
      | error e => rw [hset] at h; cases h
      | ok cs =>
        rw [hset] at h
        simp only [] at h
        obtain ⟨b1, b2, b3, b4, b5, b6, b7, b8⟩ := assignBlock_fields s cv cs
          ("TM_" ++ move) _ rfl
        cases ht : (resolvePendingAliases (setConstValue (setNumericDefine
            { ensureLength s cv with
                constants := cs
                value_to_name := upd (ensureLength s cv).value_to_name cv ("TM_" ++ move) }
            ("TM_" ++ move) cv false) (cv + 1))).numeric_defines "__tmhm_value__" with
        | none => rw [ht] at h; cases h
        | some t =>
          rw [ht] at h
          simp only [] at h
          cases h
          have htm : s.numeric_defines "__tmhm_value__" = some t := by
            rw [b3, upd_ne _ "const_value" "__tmhm_value__" _ (by decide),
              upd_ne _ ("TM_" ++ move) "__tmhm_value__" _
                (ne_of_data_head "__tmhm_value__" ("TM_" ++ move) '_' 'T' _ _ rfl rfl
                  (by decide))] at ht
            exact ht
          simp [setNumericDefine, apply_ite, ensureLength_value_to_name] at b3
          refine ⟨move, cv, cs, t, getToken_ok _ _ _ hg, rfl, hset, htm, ?_, ?_⟩
          · simp [setNumericDefine, apply_ite, ensureLength_value_to_name, b3]
          · simp [setNumericDefine, setConstValue, apply_ite, resolvePending_mmm,
              ensureLength_mmm, ensureLength_value_to_name]

theorem handleAddHm_eff (s : ParserState) (line : String) (s' : ParserState)
    (h : handleAddHm s line = .ok s') :
    ∃ move cv cs n t, (pySplit line)[1]? = some move ∧ s.const_value = some cv ∧
      pyListSet (ensureLength s cv).constants cv (some ("HM_" ++ move)) = .ok cs ∧
      s.numeric_defines "NUM_TMS" = some n ∧
      s.numeric_defines "__tmhm_value__" = some t ∧
      s'.special_values "HM_VALUE" = some (t - n) ∧
      s'.machine_move_map =
        upd s.machine_move_map ("HM" ++ fmt02 (t - n) ++ "_MOVE") move := by
  simp only [handleAddHm] at h
  cases hg : getToken (pySplit line) 1 with
  | error e => rw [hg] at h; cases h
  | ok move =>
    rw [hg] at h
    simp only [] at h
    cases hcv : s.const_value with
    | none => rw [hcv] at h; cases h
    | some cv =>
      rw [hcv] at h
      simp only [] at h
      cases hset : pyListSet (ensureLength s cv).constants cv (some ("HM_" ++ move)) with
      | error e => rw [hset] at h; cases h
      | ok cs =>
        rw [hset] at h
        simp only [] at h
        obtain ⟨b1, b2, b3, b4, b5, b6, b7, b8⟩ := assignBlock_fields s cv cs
          ("HM_" ++ move) _ rfl
        cases hnum : (resolvePendingAliases (setConstValue (setNumericDefine
            { ensureLength s cv with
                constants := cs
                value_to_name := upd (ensureLength s cv).value_to_name cv ("HM_" ++ move) }
            ("HM_" ++ move) cv false) (cv + 1))).numeric_defines "NUM_TMS" with
        | none => rw [hnum] at h; cases h
        | some n =>
          rw [hnum] at h
          simp only [] at h
          cases ht : (resolvePendingAliases (setConstValue (setNumericDefine
              { ensureLength s cv with
                  constants := cs
                  value_to_name := upd (ensureLength s cv).value_to_name cv ("HM_" ++ move) }
              ("HM_" ++ move) cv false) (cv + 1))).numeric_defines "__tmhm_value__" with
          | none => rw [ht] at h; cases h
          | some t =>
            rw [ht] at h
            simp only [] at h
            cases h
            have hn2 : s.numeric_defines "NUM_TMS" = some n := by
              rw [b3, upd_ne _ "const_value" "NUM_TMS" _ (by decide),
                upd_ne _ ("HM_" ++ move) "NUM_TMS" _
                  (ne_of_data_head "NUM_TMS" ("HM_" ++ move) 'N' 'H' _ _ rfl rfl
                    (by decide))] at hnum
              exact hnum
            have htm : s.numeric_defines "__tmhm_value__" = some t := by
              rw [b3, upd_ne _ "const_value" "__tmhm_value__" _ (by decide),
                upd_ne _ ("HM_" ++ move) "__tmhm_value__" _
                  (ne_of_data_head "__tmhm_value__" ("HM_" ++ move) '_' 'H' _ _ rfl rfl
                    (by decide))] at ht
              exact ht
            simp [setNumericDefine, apply_ite, ensureLength_value_to_name,
              ensureLength_special] at b7
            refine ⟨move, cv, cs, n, t, getToken_ok _ _ _ hg, rfl, hset, hn2, htm,
              ?_, ?_⟩
            · simp [setNumericDefine, apply_ite, ensureLength_value_to_name,
                tmhm_not_tmnum, hmvalue_not_tmnum, b7,
                upd_ne _ "__tmhm_value__" "HM_VALUE" _ (by decide), upd_self]
            · simp [setNumericDefine, setConstValue, apply_ite, resolvePending_mmm,
                ensureLength_mmm, ensureLength_value_to_name]

/-- C4: with the counter established at a nonnegative index (and not inside a
macro block), `NUM_TMS = n` and the shared machine-value counter
`__tmhm_value__ = t` defined, `add_tm PSYCHIC` immediately followed by
`add_hm FLASH` succeeds; the TM publishes its slot name under the absolute
counter value `t` with no offset, the HM publishes its slot under the
relative index `(t+1) − n` — the machine-value counter at the time of the
`add_hm` call minus `NUM_TMS`, recorded as the special define `HM_VALUE` —
and that relative index is 0 exactly when `NUM_TMS` equals the counter value
at the `add_hm` call. -/
theorem c4_hm_relative_indexing (s : ParserState) (c n t : Int)
    (hcv : s.const_value = some c) (h0 : 0 ≤ c) (hsk : s.skipping = false)
    (hn : s.numeric_defines "NUM_TMS" = some n)
    (ht : s.numeric_defines "__tmhm_value__" = some t) :
    ∃ s2, processLines s ["add_tm PSYCHIC", "add_hm FLASH"] = .ok s2 ∧
      s2.machine_move_map ("TM" ++ fmt02 t ++ "_MOVE") = some "PSYCHIC" ∧
      s2.special_values "HM_VALUE" = some ((t + 1) - n) ∧
      s2.machine_move_map ("HM" ++ fmt02 ((t + 1) - n) ++ "_MOVE") = some "FLASH" ∧
      ((t + 1) - n = 0 ↔ n = t + 1) := by
  have hgt1 : getToken (pySplit "add_tm PSYCHIC") 1 = .ok "PSYCHIC" := rfl
  have hlen1 : c < ((ensureLength s c).constants.length : Int) := by
    have := ensureLength_length s c
    omega
  have hset1 := pyListSet_of_nonneg (ensureLength s c).constants c
    (some ("TM_" ++ "PSYCHIC")) h0 hlen1
  have hmid1 : (resolvePendingAliases (setConstValue (setNumericDefine
      { ensureLength s c with
          constants := (ensureLength s c).constants.set c.toNat
            (some ("TM_" ++ "PSYCHIC"))
          value_to_name := upd (ensureLength s c).value_to_name c ("TM_" ++ "PSYCHIC") }
      ("TM_" ++ "PSYCHIC") c false) (c + 1))).numeric_defines "__tmhm_value__" =
      some t := by
    rw [(assignBlock_fields s c _ ("TM_" ++ "PSYCHIC") _ rfl).2.2.1,
      upd_ne _ _ _ _ (by decide), upd_ne _ _ _ _ (by decide)]
    exact ht
  have hex1 : ∃ s1, handleAddTm s "add_tm PSYCHIC" = .ok s1 := by
    simp only [handleAddTm, hgt1, hcv, hset1, hmid1]
    exact ⟨_, rfl⟩
  obtain ⟨s1, hrun1⟩ := hex1
  obtain ⟨mv, cv2, cs2, t2, hnm2, hcv2, hset2, ht2, hdef1, hmm1⟩ :=
    handleAddTm_eff _ _ _ hrun1
  rw [show (pySplit "add_tm PSYCHIC")[1]? = some "PSYCHIC" from rfl] at hnm2
  injection hnm2 with hnm2
  subst hnm2
  rw [hcv] at hcv2
  injection hcv2 with hcv2
  subst hcv2
  rw [ht] at ht2
  injection ht2 with ht2
  subst ht2
  obtain ⟨mv3, cv3, cs3, t3, hnm3, hcv3, _, ht3, _, _, hcvv3, hskip3, _, _⟩ :=
    handleAddTm_ok _ _ _ hrun1
  rw [hcv] at hcv3
  injection hcv3 with hcv3
  subst hcv3
  have hsk1 : s1.skipping = false := by rw [hskip3, hsk]
  have hn1 : s1.numeric_defines "NUM_TMS" = some n := by
    rw [hdef1, upd_ne _ _ _ _ (by decide), upd_ne _ _ _ _ (by decide),
      upd_ne _ _ _ _ (by decide), upd_ne _ _ _ _ (by decide)]
    exact hn
  have ht1 : s1.numeric_defines "__tmhm_value__" = some (t + 1) := by
    rw [hdef1, upd_self]
  have hgt2 : getToken (pySplit "add_hm FLASH") 1 = .ok "FLASH" := rfl
  have h02 : (0 : Int) ≤ c + 1 := by omega
  have hlen2 : c + 1 < ((ensureLength s1 (c + 1)).constants.length : Int) := by
    have := ensureLength_length s1 (c + 1)
    omega
  have hset2b := pyListSet_of_nonneg (ensureLength s1 (c + 1)).constants (c + 1)
    (some ("HM_" ++ "FLASH")) h02 hlen2
  have hmidn2 : (resolvePendingAliases (setConstValue (setNumericDefine
      { ensureLength s1 (c + 1) with
          constants := (ensureLength s1 (c + 1)).constants.set (c + 1).toNat
            (some ("HM_" ++ "FLASH"))
          value_to_name := upd (ensureLength s1 (c + 1)).value_to_name (c + 1)
            ("HM_" ++ "FLASH") }
      ("HM_" ++ "FLASH") (c + 1) false) (c + 1 + 1))).numeric_defines "NUM_TMS" =
      some n := by
    rw [(assignBlock_fields s1 (c + 1) _ ("HM_" ++ "FLASH") _ rfl).2.2.1,
      upd_ne _ _ _ _ (by decide), upd_ne _ _ _ _ (by decide)]
    exact hn1
  have hmid2 : (resolvePendingAliases (setConstValue (setNumericDefine
      { ensureLength s1 (c + 1) with
          constants := (ensureLength s1 (c + 1)).constants.set (c + 1).toNat
            (some ("HM_" ++ "FLASH"))
          value_to_name := upd (ensureLength s1 (c + 1)).value_to_name (c + 1)
            ("HM_" ++ "FLASH") }
      ("HM_" ++ "FLASH") (c + 1) false) (c + 1 + 1))).numeric_defines
      "__tmhm_value__" = some (t + 1) := by
    rw [(assignBlock_fields s1 (c + 1) _ ("HM_" ++ "FLASH") _ rfl).2.2.1,
      upd_ne _ _ _ _ (by decide), upd_ne _ _ _ _ (by decide)]
    exact ht1
  have hex2 : ∃ s2, handleAddHm s1 "add_hm FLASH" = .ok s2 := by
    simp only [handleAddHm, hgt2, hcvv3, hset2b, hmidn2, hmid2]
    exact ⟨_, rfl⟩
  obtain ⟨s2, hrun2⟩ := hex2
  obtain ⟨mv4, cv4, cs4, n4, t4, hnm4, hcv4, _, hn4, ht4, hsp4, hmm4⟩ :=
    handleAddHm_eff _ _ _ hrun2
  rw [show (pySplit "add_hm FLASH")[1]? = some "FLASH" from rfl] at hnm4
  injection hnm4 with hnm4
  subst hnm4
  rw [hn1] at hn4
  injection hn4 with hn4
  subst hn4
  rw [ht1] at ht4
  injection ht4 with ht4
  subst ht4
  have hp1 : processLine s "add_tm PSYCHIC" = handleAddTm s "add_tm PSYCHIC" := by
    unfold processLine
    rw [show stripComments "add_tm PSYCHIC" = "add_tm PSYCHIC" from rfl]
    rw [if_neg (by decide), if_neg (by decide), if_neg (by decide), hsk,
      if_neg (by decide)]
    unfold dispatchLine
    rw [if_neg (by decide), if_neg (by decide), if_neg (by decide),
      if_neg (by decide), if_pos (by decide)]
  have hp2 : processLine s1 "add_hm FLASH" = handleAddHm s1 "add_hm FLASH" := by
    unfold processLine
    rw [show stripComments "add_hm FLASH" = "add_hm FLASH" from rfl]
    rw [if_neg (by decide), if_neg (by decide), if_neg (by decide), hsk1,
      if_neg (by decide)]
    unfold dispatchLine
    rw [if_neg (by decide), if_neg (by decide), if_neg (by decide),
      if_pos (by decide)]
  refine ⟨s2, ?_, ?_, hsp4, ?_, by omega⟩
  · simp only [processLines]
    rw [hp1, hrun1]
    simp only []
    rw [hp2, hrun2]
  · rw [hmm4, upd_ne _ _ _ _
      (ne_of_data_head ("TM" ++ fmt02 t ++ "_MOVE")
        ("HM" ++ fmt02 ((t + 1) - n) ++ "_MOVE") 'T' 'H' _ _ rfl rfl (by decide)),
      hmm1, upd_self]
  · rw [hmm4, upd_self]

/-- Witness for C4 in a concrete state with `NUM_TMS = 3` and counter 3. -/
theorem c4_hm_relative_indexing_witness :
    ({ initState with
        const_value := some 0
        numeric_defines :=
          upd (upd (fun _ => none) "NUM_TMS" 3) "__tmhm_value__" 3 } :
      ParserState).const_value = some 0 ∧
    (∃ s2, processLines
        { initState with
            const_value := some 0
            numeric_defines :=
              upd (upd (fun _ => none) "NUM_TMS" 3) "__tmhm_value__" 3 }
        ["add_tm PSYCHIC", "add_hm FLASH"] = .ok s2 ∧
      s2.machine_move_map ("TM" ++ fmt02 3 ++ "_MOVE") = some "PSYCHIC" ∧
      s2.special_values "HM_VALUE" = some ((3 + 1) - 3) ∧
      s2.machine_move_map ("HM" ++ fmt02 ((3 + 1) - 3) ++ "_MOVE") = some "FLASH" ∧
      ((3 + 1) - 3 = (0 : Int) ↔ (3 : Int) = 3 + 1)) :=
  ⟨rfl, c4_hm_relative_indexing _ 0 3 3 rfl (by omega) rfl rfl rfl⟩

/-! ### C8: expression evaluation -/

/-- At a term position (not an operator token) whose `$`-form, if present, is
valid hexadecimal, `_token_to_value` and the spec term evaluator agree: both
fail exactly when the token is a name absent from the numeric-defines map, and
otherwise both return the same value. -/
theorem tokenToValue_spec (s : ParserState) (expr t : String)
    (hhex : (!(pyStartsWith t "$") || (hexVal? (t.toList.drop 1)).isSome) = true)
    (hop : isOpTok t = false) :
    (isNameTok t = true ∧ s.numeric_defines t = none ∧
      tokenToValue s t expr = .error (.valueError
        ("Unknown token " ++ t ++ " in expression " ++ expr ++ ".")) ∧
      specTermValue s.numeric_defines t =
        .error (.valueError ("UnknownSymbol: " ++ t))) ∨
    (¬(isNameTok t = true ∧ s.numeric_defines t = none) ∧
      ∃ v, tokenToValue s t expr = .ok v ∧
        specTermValue s.numeric_defines t = .ok v) := by
  by_cases hdol : pyStartsWith t "$" = true
  · right
    simp only [hdol, Bool.not_true, Bool.false_or] at hhex
    obtain ⟨v, hv⟩ := Option.isSome_iff_exists.mp hhex
    simp only [List.drop_one, String.toList] at hv
    refine ⟨?_, Int.ofNat v, ?_, ?_⟩
    · rintro ⟨hn, _⟩
      simp [isNameTok, hdol] at hn
    · simp [tokenToValue, hdol, hv]
    · simp [specTermValue, hdol, hv]
  · by_cases hdig : pyIsDigit t = true
    · right
      refine ⟨?_, Int.ofNat (decVal t.toList), ?_, ?_⟩
      · rintro ⟨hn, _⟩
        simp [isNameTok, hdig] at hn
      · simp [tokenToValue, hdol, hdig]
      · simp [specTermValue, hdol, hdig]
    · cases hdef : s.numeric_defines t with
      | none =>
        left
        refine ⟨?_, rfl, ?_, ?_⟩
        · simp [isNameTok, hop, hdol, hdig]
        · simp [tokenToValue, hdol, hdig, hdef]
        · simp [specTermValue, hdol, hdig, hdef]
      | some w =>
        right
        refine ⟨?_, w, ?_, ?_⟩
        · rintro ⟨_, hnone⟩
          exact Option.noConfusion hnone
        · simp [tokenToValue, hdol, hdig, hdef]
        · simp [specTermValue, hdol, hdig, hdef]

/-- Unfolding of the `_evaluate_expression` loop on an operator token: the
operator register is updated and the loop continues. -/
theorem evalTokens_cons_op (s : ParserState) (expr o : String)
    (rest : List String) (total : Int) (op : String)
    (h : (o = "+" || o = "-") = true) :
    evalTokens s expr (o :: rest) total op = evalTokens s expr rest total o := by
  rw [evalTokens, if_pos h]

/-- Unfolding of the `_evaluate_expression` loop on a term whose
`_token_to_value` call fails: the whole evaluation fails with that error. -/
theorem evalTokens_cons_term_err (s : ParserState) (expr t : String)
    (rest : List String) (total : Int) (op : String) {e : PyErr}
    (h : (t = "+" || t = "-") = false) (he : tokenToValue s t expr = .error e) :
    evalTokens s expr (t :: rest) total op = .error e := by
  rw [evalTokens, if_neg (by simp [h]), he]

/-- Unfolding of the `_evaluate_expression` loop on a term whose
`_token_to_value` call succeeds: the running total is updated according to the
current operator register. -/
theorem evalTokens_cons_term_ok (s : ParserState) (expr t : String)
    (rest : List String) (total : Int) (op : String) {v : Int}
    (h : (t = "+" || t = "-") = false) (hv : tokenToValue s t expr = .ok v) :
    evalTokens s expr (t :: rest) total op =
      evalTokens s expr rest (if op = "+" then total + v else total - v) op := by
  rw [evalTokens, if_neg (by simp [h]), hv]

/-- Unfolding of the spec tail evaluator on an operator/term pair whose term
fails. -/
theorem specEvalSteps_cons_err (defs : String → Option Int) (acc : Int)
    (o t : String) (rest : List String) {e : PyErr}
    (he : specTermValue defs t = .error e) :
    specEvalSteps defs acc (o :: t :: rest) = .error e := by
  rw [specEvalSteps, he]

/-- Unfolding of the spec tail evaluator on an operator/term pair whose term
succeeds. -/
theorem specEvalSteps_cons_ok (defs : String → Option Int) (acc : Int)
    (o t : String) (rest : List String) {v : Int}
    (hv : specTermValue defs t = .ok v) :
    specEvalSteps defs acc (o :: t :: rest) =
      specEvalSteps defs (if o = "+" then acc + v else acc - v) rest := by
  rw [specEvalSteps, hv]

/-- Tail refinement for C8: from an operator-expecting position of a
well-formed token list with valid hexadecimal literals, the
`_evaluate_expression` loop (with any operator register) and the spec tail
evaluator succeed with the same values, and the loop fails exactly when some
name among the remaining tokens is absent from the numeric-defines map, with
the Unknown-token error naming such a token. -/
theorem evalTokens_spec (s : ParserState) (expr : String) :
    ∀ (rest : List String) (total : Int) (op : String),
      wfAlt false rest = true → allHexValid rest = true →
      ((∀ v : Int, evalTokens s expr rest total op = .ok v ↔
          specEvalSteps s.numeric_defines total rest = .ok v) ∧
       (∀ e, evalTokens s expr rest total op = .error e →
          ∃ tok, tok ∈ rest ∧ isNameTok tok = true ∧
            s.numeric_defines tok = none ∧
            e = .valueError
              ("Unknown token " ++ tok ++ " in expression " ++ expr ++ ".")) ∧
       ((∃ tok, tok ∈ rest ∧ isNameTok tok = true ∧
            s.numeric_defines tok = none) →
          ∃ e, evalTokens s expr rest total op = .error e))
  | [], total, op, _, _ => by
    refine ⟨fun v => Iff.rfl, ?_, ?_⟩
    · intro e he
      exact absurd he (by simp [evalTokens])
    · rintro ⟨tok, htok, _⟩
      exact absurd htok (List.not_mem_nil _)
  | [o], total, op, hwf, _ => by
    simp [wfAlt] at hwf
  | o :: t :: rest, total, op, hwf, hhex => by
    simp only [wfAlt, Bool.and_eq_true] at hwf
    obtain ⟨ho, hnt0, hrest⟩ := hwf
    have hnt : isOpTok t = false := by simpa using hnt0
    simp only [allHexValid, List.all_cons, Bool.and_eq_true] at hhex
    obtain ⟨hhexo, hhext, hhexrest⟩ := hhex
    have hhexrest2 : allHexValid rest = true := hhexrest
    have ho2 : (o = "+" || o = "-") = true := ho
    have hnt2 : (t = "+" || t = "-") = false := hnt
    cases tokenToValue_spec s expr t hhext hnt with
    | inl herr =>
      obtain ⟨hname, hnone, htok, hspec⟩ := herr
      have hcode : evalTokens s expr (o :: t :: rest) total op =
          .error (.valueError
            ("Unknown token " ++ t ++ " in expression " ++ expr ++ ".")) := by
        rw [evalTokens_cons_op s expr o (t :: rest) total op ho2]
        exact evalTokens_cons_term_err s expr t rest total o hnt2 htok
      have hspec2 : specEvalSteps s.numeric_defines total (o :: t :: rest) =
          .error (.valueError ("UnknownSymbol: " ++ t)) :=
        specEvalSteps_cons_err _ _ _ _ _ hspec
      refine ⟨?_, ?_, ?_⟩
      · intro w
        rw [hcode, hspec2]
        constructor <;> intro h <;> exact Except.noConfusion h
      · intro e he
        rw [hcode] at he
        injection he with he
        exact ⟨t, by simp, hname, hnone, he.symm⟩
      · intro _
        exact ⟨_, hcode⟩
    | inr hok =>
      obtain ⟨hnn, v, htok, hspec⟩ := hok
      have hcode : evalTokens s expr (o :: t :: rest) total op =
          evalTokens s expr rest (if o = "+" then total + v else total - v) o := by
        rw [evalTokens_cons_op s expr o (t :: rest) total op ho2]
        exact evalTokens_cons_term_ok s expr t rest total o hnt2 htok
      have hspec2 : specEvalSteps s.numeric_defines total (o :: t :: rest) =
          specEvalSteps s.numeric_defines
            (if o = "+" then total + v else total - v) rest :=
        specEvalSteps_cons_ok _ _ _ _ _ hspec
      obtain ⟨ih1, ih2, ih3⟩ := evalTokens_spec s expr rest
        (if o = "+" then total + v else total - v) o hrest hhexrest2
      refine ⟨?_, ?_, ?_⟩
      · intro w
        rw [hcode, hspec2]
        exact ih1 w
      · intro e he
        rw [hcode] at he
        obtain ⟨tok, hm, h1, h2, h3⟩ := ih2 e he
        exact ⟨tok, List.mem_cons_of_mem _ (List.mem_cons_of_mem _ hm), h1, h2, h3⟩
      · rintro ⟨tok, hm, h1, h2⟩
        rw [hcode]
        rcases List.mem_cons.mp hm with h | hm2
        · subst h
          simp [isNameTok, ho] at h1
        · rcases List.mem_cons.mp hm2 with h | hm3
          · subst h
            exact absurd ⟨h1, h2⟩ hnn
          · exact ih3 ⟨tok, hm3, h1, h2⟩

/-- C8: on the spec grammar domain — a nonempty alternating `term (op term)*`
token list whose `$`-prefixed terms are valid hexadecimal —
`_evaluate_expression` succeeds exactly when the spec left-to-right
sum/difference fold `specEvalTokens` does, with the same value; it fails
precisely when some non-literal (name) term is absent from the numeric-defines
map at evaluation time, the failure is the Unknown-token (`UnknownSymbol`)
`ValueError` naming such a term, and through `_handle_const_next` that failure
aborts the directive — and hence the whole parse — with the same error. -/
theorem c8_expression_evaluation (s : ParserState) (expression : String)
    (hwf : wfAlt true (exprTokens expression) = true)
    (hhex : allHexValid (exprTokens expression) = true) :
    (∀ v : Int, evaluateExpression s expression = .ok v ↔
        specEvalTokens s.numeric_defines (exprTokens expression) = .ok v) ∧
    (∀ e, evaluateExpression s expression = .error e →
        ∃ tok, tok ∈ exprTokens expression ∧ isNameTok tok = true ∧
          s.numeric_defines tok = none ∧
          e = .valueError
            ("Unknown token " ++ tok ++ " in expression " ++ expression ++ ".")) ∧
    ((∃ tok, tok ∈ exprTokens expression ∧ isNameTok tok = true ∧
        s.numeric_defines tok = none) →
      ∃ e, evaluateExpression s expression = .error e) ∧
    (∀ line e, pySplitMax1 line = ["const_next", expression] →
        evaluateExpression s expression = .error e →
        handleConstNext s line = .error e) := by
  cases htoks : exprTokens expression with
  | nil =>
    rw [htoks] at hwf
    simp [wfAlt] at hwf
  | cons t0 rest =>
    rw [htoks] at hwf hhex
    simp only [wfAlt, Bool.and_eq_true] at hwf
    obtain ⟨hnt00, hrest⟩ := hwf
    have hnt0 : isOpTok t0 = false := by simpa using hnt00
    simp only [allHexValid, List.all_cons, Bool.and_eq_true] at hhex
    obtain ⟨hhex0, hhexrest⟩ := hhex
    have hhexrest2 : allHexValid rest = true := hhexrest
    have hnt02 : (t0 = "+" || t0 = "-") = false := hnt0
    have heval : evaluateExpression s expression =
        evalTokens s expression (t0 :: rest) 0 "+" := by
      rw [evaluateExpression, htoks]
    cases tokenToValue_spec s expression t0 hhex0 hnt0 with
    | inl herr =>
      obtain ⟨hname, hnone, htok, hspec⟩ := herr
      have hcode : evaluateExpression s expression =
          .error (.valueError ("Unknown token " ++ t0 ++ " in expression " ++
            expression ++ ".")) := by
        rw [heval]
        exact evalTokens_cons_term_err s expression t0 rest 0 "+" hnt02 htok
      have hspec2 : specEvalTokens s.numeric_defines (t0 :: rest) =
          .error (.valueError ("UnknownSymbol: " ++ t0)) := by
        rw [specEvalTokens, hspec]
      refine ⟨?_, ?_, ?_, ?_⟩
      · intro w
        rw [hcode, hspec2]
        constructor <;> intro h <;> exact Except.noConfusion h
      · intro e he
        rw [hcode] at he
        injection he with he
        exact ⟨t0, List.mem_cons_self _ _, hname, hnone, he.symm⟩
      · intro _
        exact ⟨_, hcode⟩
      · intro line e hsplit herr2
        simp only [handleConstNext, hsplit]
        rw [herr2]
    | inr hok =>
      obtain ⟨hnn, v, htok, hspec⟩ := hok
      have hcode : evaluateExpression s expression =
          evalTokens s expression rest v "+" := by
        rw [heval, evalTokens_cons_term_ok s expression t0 rest 0 "+" hnt02 htok,
          if_pos rfl, zero_add]
      have hspec2 : specEvalTokens s.numeric_defines (t0 :: rest) =
          specEvalSteps s.numeric_defines v rest := by
        rw [specEvalTokens, hspec]
      obtain ⟨ih1, ih2, ih3⟩ := evalTokens_spec s expression rest v "+"
        hrest hhexrest2
      refine ⟨?_, ?_, ?_, ?_⟩
      · intro w
        rw [hcode, hspec2]
        exact ih1 w
      · intro e he
        rw [hcode] at he
        obtain ⟨tok, hm, h1, h2, h3⟩ := ih2 e he
        exact ⟨tok, List.mem_cons_of_mem _ hm, h1, h2, h3⟩
      · rintro ⟨tok, hm, h1, h2⟩
        rw [hcode]
        rcases List.mem_cons.mp hm with h | hm2
        · subst h
          exact absurd ⟨h1, h2⟩ hnn
        · exact ih3 ⟨tok, hm2, h1, h2⟩
      · intro line e hsplit herr2
        simp only [handleConstNext, hsplit]
        rw [herr2]

/-- Witness for C8 on `$A + 2 - FOO` with `FOO = 1`: the evaluator returns
10 + 2 - 1 = 11; on `$A + 2 - BAR` with `BAR` undefined it fails. -/
theorem c8_expression_evaluation_witness :
    wfAlt true (exprTokens "$A + 2 - FOO") = true ∧
    evaluateExpression
      { initState with numeric_defines := upd (fun _ => none) "FOO" 1 }
      "$A + 2 - FOO" = .ok 11 ∧
    (∃ e, evaluateExpression
      { initState with numeric_defines := upd (fun _ => none) "FOO" 1 }
      "$A + 2 - BAR" = .error e) := by
  refine ⟨by decide, ?_, ?_⟩
  · exact ((c8_expression_evaluation
      { initState with numeric_defines := upd (fun _ => none) "FOO" 1 }
      "$A + 2 - FOO" (by decide) (by decide)).1 11).mpr (by rfl)
  · exact (c8_expression_evaluation
      { initState with numeric_defines := upd (fun _ => none) "FOO" 1 }
      "$A + 2 - BAR" (by decide) (by decide)).2.2.1
      ⟨"BAR", by decide, by decide, by decide⟩

end ItemConstants
